import Mathlib

/-!
# PWM channel driver (`modm/driver/pwm`)

A shallow embedding of `pwm_channel_iface.hpp` (`IPwmChannel`) and
`pwm_channel.hpp` (`PwmChannel<Timer, Channel, SystemClock>`), together with the
collaborators the class template is instantiated with, and theorems about them.

The C++ `float` of `SetDutyCycle` is modelled as IEEE-754 binary32 with
round-to-nearest-even (`F32`); durations and frequencies are natural numbers.
-/

set_option autoImplicit false
set_option maxRecDepth 100000
set_option exponentiation.threshold 1024

/-! ## IEEE-754 binary32 -/

/-- A binary32 value. A finite value is a sign and a magnitude counted in units of
`2^-149` (the smallest subnormal); every finite binary32 magnitude is a whole number
of such units. -/
inductive F32 where
  | nan : F32
  | inf (neg : Bool) : F32
  | fin (neg : Bool) (n : Nat) : F32
  deriving DecidableEq, Repr

namespace F32

/-- Number of `2^-149` units in `1.0`. -/
def unit : Nat := 2 ^ 149

/-- Number of `2^-149` units in `2^128`, the first magnitude that is too large. -/
def huge : Nat := 2 ^ 128 * unit

/-- Helper of `bitLen`, with the recursion depth bounded by `fuel`. -/
def bitLenAux : Nat → Nat → Nat
  | 0, _ => 0
  | fuel + 1, n => if n = 0 then 0 else bitLenAux fuel (n / 2) + 1

/-- Number of significant bits of `n` (`0` for `0`). -/
def bitLen (n : Nat) : Nat := bitLenAux n n

/-- The magnitude `n` has at most 24 significant bits. -/
def Rep24 (n : Nat) : Prop := n % 2 ^ (bitLen n - 24) = 0

/-- A magnitude of `n` units is a binary32 magnitude: it has at most 24 significant
bits and is below `2^128`. -/
def Representable (n : Nat) : Prop := Rep24 n ∧ n < huge

instance (n : Nat) : Decidable (Representable n) := by
  unfold Representable Rep24; infer_instance

/-- The value is one a `float` variable can hold. -/
def WF : F32 → Prop
  | fin _ n => Representable n
  | _ => True

instance (x : F32) : Decidable (WF x) := by
  cases x <;> unfold WF <;> infer_instance

/-- Quotient `m / 2^k` rounded to nearest, ties to even. -/
def rne (m k : Nat) : Nat :=
  let q := m / 2 ^ k
  let r := m % 2 ^ k
  if 2 * r < 2 ^ k then q
  else if 2 ^ k < 2 * r then q + 1
  else if q % 2 = 0 then q else q + 1

/-- The magnitude `x` rounded to 24 significant bits. -/
def round24 (x : Nat) : Nat := rne x (bitLen x - 24) * 2 ^ (bitLen x - 24)

/-- Rounds the exact magnitude `p * 2^-(149+u)` to binary32: keeps 24 significant
bits but never goes below the unit `2^-149`; overflows to infinity. -/
def round (neg : Bool) (p u : Nat) : F32 :=
  let k := max (bitLen p - 24) u
  let n := rne p k * 2 ^ (k - u)
  if n < huge then fin neg n else inf neg

/-- The constant `1.f`. -/
def one : F32 := fin false unit

/-- Conversion of an unsigned integer to `float`. -/
def ofNat (v : Nat) : F32 := round false (v * unit) 0

/-- Product `a * b` of two floats. -/
def mul : F32 → F32 → F32
  | nan, _ => nan
  | _, nan => nan
  | inf s, inf t => inf (xor s t)
  | inf s, fin t n => if n = 0 then nan else inf (xor s t)
  | fin s n, inf t => if n = 0 then nan else inf (xor s t)
  | fin s n, fin t m => round (xor s t) (n * m) 149

/-- Signed number of units of a finite value. -/
def signedUnits (neg : Bool) (n : Nat) : Int := if neg then -(n : Int) else (n : Int)

/-- Comparison `a > b`; false whenever an operand is NaN. -/
def gt : F32 → F32 → Bool
  | nan, _ => false
  | _, nan => false
  | inf s, inf t => !s && t
  | inf s, fin _ _ => !s
  | fin _ _, inf t => t
  | fin s n, fin t m => decide (signedUnits t m < signedUnits s n)

/-- Comparison `a ≤ b`; false whenever an operand is NaN. -/
def le : F32 → F32 → Bool
  | nan, _ => false
  | _, nan => false
  | inf s, inf t => s || !t
  | inf s, fin _ _ => s
  | fin _ _, inf t => !t
  | fin s n, fin t m => decide (signedUnits s n ≤ signedUnits t m)

/-- The exact rational value of a finite float (`0` for NaN and the infinities). -/
def toRat : F32 → ℚ
  | fin s n => (signedUnits s n : ℚ) / (unit : ℚ)
  | _ => 0

/-- Conversion of a `float` to an unsigned integer type of `w` bits: truncation
towards zero; `none` where the truncated value is not a value of that type (the
conversion is undefined there). -/
def toValue (w : Nat) : F32 → Option Nat
  | fin s n =>
    let t := n / unit
    if s && decide (t ≠ 0) then none
    else if t < 2 ^ w then some t else none
  | _ => none

end F32

/-! ## The Timer, Channel and SystemClock collaborators -/

namespace Timer

/-- Counting modes, `Timer::Mode`. -/
inductive Mode where
  | UpCounter
  | DownCounter
  deriving DecidableEq, Repr

/-- Output-compare modes, `Timer::OutputCompareMode`. -/
inductive OutputCompareMode where
  | Pwm
  | Pwm2
  | ForceActive
  | ForceInactive
  deriving DecidableEq, Repr

/-- Pin states, `Timer::PinState`. -/
inductive PinState where
  | Disable
  | Enable
  deriving DecidableEq, Repr

/-- Output polarities, `Timer::OutputComparePolarity`. -/
inductive OutputComparePolarity where
  | ActiveHigh
  | ActiveLow
  deriving DecidableEq, Repr

/-- One actual argument of a `configureOutputChannel<Channel>(...)` call. -/
inductive Arg where
  | mode (m : OutputCompareMode)
  | pin (p : PinState)
  | polarity (p : OutputComparePolarity)
  | int (n : Int)
  deriving DecidableEq, Repr

/-- A state-changing call on the timer, with its actual arguments. The channel of a
`<Channel>` call is given by its identifier. -/
inductive Call where
  | enable
  | setMode (m : Mode)
  | setPeriod (us : Nat)
  | enableOutput
  | connect (ch : Nat)
  | setCompareValue (ch : Nat) (x : F32)
  | configureOutputChannel (ch : Nat) (args : List Arg)
  | start
  | pause
  deriving DecidableEq, Repr

end Timer

/-- The compile-time facts of the `Timer` template argument: its capability tier
(`Timer::hasAdvancedPwmControl()`), the width in bits of its unsigned register type
`Timer::Value`, and what its two-argument form
`configureOutputChannel<Channel>(mode, value)` does with `value`:
`configValueIsCompare` says that `value` is stored in the compare register of the
channel, as on the general-purpose timers of modm, whose second parameter is
`Value compareValue`. The declaration is not among the sources, so both answers are
covered. -/
structure Timer where
  hasAdvancedPwmControl : Bool
  valueBits : Nat
  configValueIsCompare : Bool
  deriving DecidableEq, Repr

/-- The `Channel` template argument: which channel of the timer is driven, and
`Timer::isComplementaryChannel<Channel>()`. -/
structure Channel where
  id : Nat
  isComplementaryChannel : Bool
  deriving DecidableEq, Repr

/-- The `SystemClock` template argument: `ticks us` is the reload value the timer
derives from a period of `us` microseconds at this clock. -/
structure SystemClock where
  ticks : Nat → Nat

/-- Modelled from the spec: the Timer capability of section 6 (`modm/platform.hpp` is
not among the sources), as a recording fake. All members of `Timer` are static, so
this state is shared by every channel of the timer: `enabled` is what `isEnabled()`
returns, `overflow` what `getOverflow()` returns, and `log` lists the state-changing
calls received so far, oldest first. -/
structure TimerState where
  enabled : Bool
  overflow : Nat
  log : List Timer.Call
  deriving DecidableEq, Repr

namespace Timer

/-- Query `Timer::isEnabled()`. -/
def isEnabled (t : TimerState) : Bool := t.enabled

/-- Query `Timer::getOverflow()`. -/
def getOverflow (t : TimerState) : Nat := t.overflow

/-- Call `Timer::enable()`: from now on `isEnabled()` is true. -/
def enable (t : TimerState) : TimerState :=
  { t with enabled := true, log := t.log ++ [Call.enable] }

/-- Call `Timer::setMode(m)`. -/
def setMode (m : Mode) (t : TimerState) : TimerState :=
  { t with log := t.log ++ [Call.setMode m] }

/-- Call `Timer::setPeriod<SystemClock>(us)`: the period becomes the reload value. -/
def setPeriod (K : SystemClock) (us : Nat) (t : TimerState) : TimerState :=
  { t with overflow := K.ticks us, log := t.log ++ [Call.setPeriod us] }

/-- Call `Timer::enableOutput()`. -/
def enableOutput (t : TimerState) : TimerState :=
  { t with log := t.log ++ [Call.enableOutput] }

/-- Call `Timer::connect<Channel>()`. -/
def connect (C : Channel) (t : TimerState) : TimerState :=
  { t with log := t.log ++ [Call.connect C.id] }

/-- Call `Timer::setCompareValue<Channel>(x)`, `x` being the float handed over. -/
def setCompareValue (C : Channel) (x : F32) (t : TimerState) : TimerState :=
  { t with log := t.log ++ [Call.setCompareValue C.id x] }

/-- Call `Timer::configureOutputChannel<Channel>(args...)`. -/
def configureOutputChannel (C : Channel) (args : List Arg) (t : TimerState) : TimerState :=
  { t with log := t.log ++ [Call.configureOutputChannel C.id args] }

/-- Call `Timer::start()`. -/
def start (t : TimerState) : TimerState :=
  { t with log := t.log ++ [Call.start] }

/-- Call `Timer::pause()`. -/
def pause (t : TimerState) : TimerState :=
  { t with log := t.log ++ [Call.pause] }

end Timer

namespace TimerState

/-- The period last programmed with `setPeriod`, in microseconds. -/
def period (t : TimerState) : Option Nat :=
  t.log.reverse.findSome? fun c =>
    match c with
    | Timer.Call.setPeriod us => some us
    | _ => none

/-- The counting mode last programmed with `setMode`. -/
def mode (t : TimerState) : Option Timer.Mode :=
  t.log.reverse.findSome? fun c =>
    match c with
    | Timer.Call.setMode m => some m
    | _ => none

/-- The arguments of the last `configureOutputChannel` call for channel `ch`. -/
def channelConfig (ch : Nat) (t : TimerState) : Option (List Timer.Arg) :=
  t.log.reverse.findSome? fun c =>
    match c with
    | Timer.Call.configureOutputChannel k args => if k = ch then some args else none
    | _ => none

/-- The float last handed to `setCompareValue` for channel `ch`. -/
def compareArg (ch : Nat) (t : TimerState) : Option F32 :=
  t.log.reverse.findSome? fun c =>
    match c with
    | Timer.Call.setCompareValue k x => if k = ch then some x else none
    | _ => none

/-- What the call `c` writes to the compare register of channel `ch`, if it writes
there at all: `setCompareValue` writes the float handed over, converted to the
register type `Timer::Value` (`none` where that conversion is undefined); on a timer
with `configValueIsCompare`, the two-argument `configureOutputChannel` writes its
integer argument, converted to `Timer::Value`. -/
def compareWrite (T : Timer) (ch : Nat) : Timer.Call → Option (Option Nat)
  | Timer.Call.setCompareValue k x =>
    if k = ch then some (F32.toValue T.valueBits x) else none
  | Timer.Call.configureOutputChannel k [Timer.Arg.mode _, Timer.Arg.int n] =>
    if k = ch ∧ T.configValueIsCompare = true then
      some (some (n % 2 ^ T.valueBits).toNat)
    else none
  | _ => none

/-- The content of the compare register of channel `ch`: what the last call that
wrote it left there. -/
def compareValue (T : Timer) (ch : Nat) (t : TimerState) : Option Nat :=
  (t.log.reverse.findSome? (compareWrite T ch)).join

/-- The output-compare mode last programmed for channel `ch`: the mode argument of the
last `configureOutputChannel` call for it. -/
def channelMode (ch : Nat) (t : TimerState) : Option Timer.OutputCompareMode :=
  match t.channelConfig ch with
  | some (Timer.Arg.mode m :: _) => some m
  | _ => none

/-- Whether the counter was last started (`true`) or paused (`false`). -/
def counting (t : TimerState) : Option Bool :=
  t.log.reverse.findSome? fun c =>
    match c with
    | Timer.Call.start => some true
    | Timer.Call.pause => some false
    | _ => none

/-- How many times the call `c` was received. -/
def calls (c : Timer.Call) (t : TimerState) : Nat := t.log.count c

/-- How many `setMode` calls were received, whatever the argument. -/
def setModeCalls (t : TimerState) : Nat :=
  t.log.countP fun c =>
    match c with
    | Timer.Call.setMode _ => true
    | _ => false

/-- How many `setPeriod` calls were received, whatever the argument. -/
def setPeriodCalls (t : TimerState) : Nat :=
  t.log.countP fun c =>
    match c with
    | Timer.Call.setPeriod _ => true
    | _ => false

end TimerState

/-! ## `pwm_channel_iface.hpp` -/

/-- The data members of `IPwmChannel`, with their default initialisers. -/
structure IPwmChannel where
  inverted_ : Bool := false
  running_ : Bool := false
  deriving DecidableEq, Repr

namespace IPwmChannel

/-- Accessor `isInverted()`. -/
def isInverted (self : IPwmChannel) : Bool := self.inverted_

/-- Accessor `isRunning()`. -/
def isRunning (self : IPwmChannel) : Bool := self.running_

/-- Constant `IPwmChannel::kDefaultPwmFreq`. -/
def kDefaultPwmFreq : Nat := 10000

end IPwmChannel

/-- Constant `kMaxPwmFreqSupported`. -/
def kMaxPwmFreqSupported : Nat := 24000

/-! ## `pwm_channel.hpp` -/

namespace PwmChannel

open Timer

/-- Constant `kUsInSecond` of `InitTimer`, in microseconds. -/
def kUsInSecond : Nat := 1000000

/-- Method `PwmChannel::ConfigureChannel`. -/
def ConfigureChannel (T : Timer) (C : Channel) (pwm_mode : OutputCompareMode)
    (t : TimerState) : TimerState :=
  if T.hasAdvancedPwmControl then
    let main_pin_state := PinState.Enable
    let complementary_pin_state := PinState.Disable
    let pins :=
      if C.isComplementaryChannel then (PinState.Disable, PinState.Enable)
      else (main_pin_state, complementary_pin_state)
    Timer.configureOutputChannel C
      [Arg.mode pwm_mode, Arg.pin pins.1,
        Arg.polarity OutputComparePolarity.ActiveHigh, Arg.pin pins.2] t
  else
    Timer.configureOutputChannel C [Arg.mode pwm_mode, Arg.int 0] t

/-- Method `PwmChannel::InitTimer`; `none` is the division by a zero frequency. -/
def InitTimer (T : Timer) (K : SystemClock) (pwm_frequency : Nat)
    (t : TimerState) : Option TimerState :=
  let t := Timer.enable t
  let t := Timer.setMode Mode.UpCounter t
  if pwm_frequency = 0 then none
  else
    let t := Timer.setPeriod K (kUsInSecond / pwm_frequency) t
    some (if T.hasAdvancedPwmControl then Timer.enableOutput t else t)

/-- Method `PwmChannel::Stop`. -/
def Stop (T : Timer) (C : Channel) (self : IPwmChannel)
    (t : TimerState) : IPwmChannel × TimerState :=
  let pwm_mode :=
    if self.inverted_ then OutputCompareMode.ForceActive else OutputCompareMode.ForceInactive
  let t := ConfigureChannel T C pwm_mode t
  let t := Timer.pause t
  ({ self with running_ := false }, t)

/-- Method `PwmChannel::Start`. -/
def Start (T : Timer) (C : Channel) (self : IPwmChannel)
    (t : TimerState) : IPwmChannel × TimerState :=
  let pwm_mode := if self.inverted_ then OutputCompareMode.Pwm2 else OutputCompareMode.Pwm
  let t := ConfigureChannel T C pwm_mode t
  let t := Timer.start t
  ({ self with running_ := true }, t)

/-- Method `PwmChannel::Init`; `pwm_freq` is the `uint32_t` argument. -/
def Init (T : Timer) (C : Channel) (K : SystemClock) (invert : Bool) (pwm_freq : Nat)
    (self : IPwmChannel) (t : TimerState) : Option (IPwmChannel × TimerState) :=
  match (if !Timer.isEnabled t then InitTimer T K pwm_freq t else some t) with
  | none => none
  | some t =>
    let self := { self with inverted_ := invert }
    let t := Timer.connect C t
    some (Start T C self t)

/-- Method `PwmChannel::SetDutyCycle`. -/
def SetDutyCycle (C : Channel) (duty_cycle : F32) (self : IPwmChannel)
    (t : TimerState) : IPwmChannel × TimerState :=
  let duty_cycle := if F32.gt duty_cycle F32.one then F32.one else duty_cycle
  (self, Timer.setCompareValue C (F32.mul (F32.ofNat (Timer.getOverflow t)) duty_cycle) t)

/-- Method `PwmChannel::SetInverted`. -/
def SetInverted (T : Timer) (C : Channel) (invert : Bool) (self : IPwmChannel)
    (t : TimerState) : IPwmChannel × TimerState :=
  let self := { self with inverted_ := invert }
  if self.running_ then Start T C self t else Stop T C self t

end PwmChannel

namespace PwmChannel

open Timer

/-- The call that `ConfigureChannel` issues for the output-compare mode `m`. -/
def configCall (T : Timer) (C : Channel) (m : OutputCompareMode) : Call :=
  if T.hasAdvancedPwmControl then
    Call.configureOutputChannel C.id
      [Arg.mode m,
        Arg.pin (if C.isComplementaryChannel then PinState.Disable else PinState.Enable),
        Arg.polarity OutputComparePolarity.ActiveHigh,
        Arg.pin (if C.isComplementaryChannel then PinState.Enable else PinState.Disable)]
  else Call.configureOutputChannel C.id [Arg.mode m, Arg.int 0]

/-- The calls of the timer bring-up `InitTimer` for a period of `us` microseconds. -/
def bringUpCalls (T : Timer) (us : Nat) : List Call :=
  [Call.enable, Call.setMode Mode.UpCounter, Call.setPeriod us] ++
    (if T.hasAdvancedPwmControl then [Call.enableOutput] else [])

/-- The call `Init()` with both default arguments, `invert = false` and
`pwm_freq = kDefaultPwmFreq`. -/
def InitDefault (T : Timer) (C : Channel) (K : SystemClock) (self : IPwmChannel)
    (t : TimerState) : Option (IPwmChannel × TimerState) :=
  Init T C K false IPwmChannel.kDefaultPwmFreq self t

/-- The condition of the `static_assert` of `pwm_channel_iface.hpp`. -/
def staticAssert : Bool := decide (IPwmChannel.kDefaultPwmFreq < kMaxPwmFreqSupported)

/-- A call on the public interface of a channel, with its arguments. -/
inductive Op where
  | Init (invert : Bool) (pwm_freq : Nat)
  | SetDutyCycle (duty_cycle : F32)
  | Stop
  | Start
  | SetInverted (invert : Bool)
  deriving DecidableEq, Repr

/-- The call starts the channel: it is `Init` or `Start`. -/
def Op.starts : Op → Bool
  | Op.Init _ _ => true
  | Op.Start => true
  | _ => false

/-- The call is one of `Init`, `Start`, `Stop`, `SetInverted`, not `SetDutyCycle`. -/
def Op.configures : Op → Bool
  | Op.SetDutyCycle _ => false
  | _ => true

/-- The call can be made whatever the state of the timer: an `Init` has a non-zero
frequency. -/
def Op.defined : Op → Bool
  | Op.Init _ pwm_freq => decide (1 ≤ pwm_freq)
  | _ => true

/-- One call on a channel object and its timer; `none` where the call is undefined. -/
def step (T : Timer) (C : Channel) (K : SystemClock) :
    Op → IPwmChannel × TimerState → Option (IPwmChannel × TimerState)
  | Op.Init invert pwm_freq, s => Init T C K invert pwm_freq s.1 s.2
  | Op.SetDutyCycle duty_cycle, s => some (SetDutyCycle C duty_cycle s.1 s.2)
  | Op.Stop, s => some (Stop T C s.1 s.2)
  | Op.Start, s => some (Start T C s.1 s.2)
  | Op.SetInverted invert, s => some (SetInverted T C invert s.1 s.2)

/-- A sequence of calls on one channel object, first call first. -/
def run (T : Timer) (C : Channel) (K : SystemClock) :
    List Op → IPwmChannel × TimerState → Option (IPwmChannel × TimerState)
  | [], s => some s
  | op :: ops, s => (step T C K op s).bind (run T C K ops)

/-- The value of `running_` after the calls `ops`, when it was `b` before. -/
def runningAfter : List Op → Bool → Bool
  | [], b => b
  | Op.Init _ _ :: ops, _ => runningAfter ops true
  | Op.Start :: ops, _ => runningAfter ops true
  | Op.Stop :: ops, _ => runningAfter ops false
  | Op.SetDutyCycle _ :: ops, b => runningAfter ops b
  | Op.SetInverted _ :: ops, b => runningAfter ops b

/-- The output-compare mode that belongs to the two flags of a channel. -/
def modeOf (self : IPwmChannel) : OutputCompareMode :=
  if self.running_ then
    (if self.inverted_ then OutputCompareMode.Pwm2 else OutputCompareMode.Pwm)
  else
    (if self.inverted_ then OutputCompareMode.ForceActive
      else OutputCompareMode.ForceInactive)

/-- The timer agrees with the flags of the channel object: the output-compare mode
last programmed for the channel is the one of the flags, and the counter was last
started if the channel is running and last paused if it is not. -/
def Consistent (C : Channel) (s : IPwmChannel × TimerState) : Prop :=
  s.2.channelMode C.id = some (modeOf s.1) ∧ s.2.counting = some s.1.running_

/-- Two channel objects `a` and `b` that drive channels of one timer. -/
structure Shared where
  a : IPwmChannel
  b : IPwmChannel
  timer : TimerState
  deriving DecidableEq, Repr

/-- The call `A.Init()`. -/
def Shared.initA (T : Timer) (CA : Channel) (K : SystemClock) (s : Shared) :
    Option Shared :=
  (InitDefault T CA K s.a s.timer).map fun r => { s with a := r.1, timer := r.2 }

/-- The call `B.Init()`. -/
def Shared.initB (T : Timer) (CB : Channel) (K : SystemClock) (s : Shared) :
    Option Shared :=
  (InitDefault T CB K s.b s.timer).map fun r => { s with b := r.1, timer := r.2 }

/-- The call `A.Stop()`. -/
def Shared.stopA (T : Timer) (CA : Channel) (s : Shared) : Shared :=
  { s with a := (Stop T CA s.a s.timer).1, timer := (Stop T CA s.a s.timer).2 }

end PwmChannel

/-! ## Sample collaborators -/

/-- An advanced-control timer with 16-bit registers. -/
def advancedTimer : Timer :=
  { hasAdvancedPwmControl := true, valueBits := 16, configValueIsCompare := true }

/-- A basic-tier timer with 32-bit registers, whose two-argument
`configureOutputChannel` takes the compare value. -/
def basicTimer : Timer :=
  { hasAdvancedPwmControl := false, valueBits := 32, configValueIsCompare := true }

/-- A main channel, number 1. -/
def mainChannel : Channel := { id := 1, isComplementaryChannel := false }

/-- Another main channel, number 2. -/
def secondChannel : Channel := { id := 2, isComplementaryChannel := false }

/-- A clock of 84 ticks per microsecond. -/
def sampleClock : SystemClock := { ticks := fun us => 84 * us }

/-- The float `2.0`. -/
def F32.two : F32 := F32.fin false (2 * F32.unit)

/-- The float `0.5`. -/
def F32.half : F32 := F32.fin false (2 ^ 148)

/-- The float `0.0`. -/
def F32.zero : F32 := F32.fin false 0

/-- A timer that is disabled and has received no call. -/
def freshTimer : TimerState := { enabled := false, overflow := 0, log := [] }

/-- A timer that was brought up before, with a period of 500 microseconds. -/
def enabledTimer : TimerState :=
  { enabled := true, overflow := 42000,
    log := [Timer.Call.enable, Timer.Call.setMode Timer.Mode.DownCounter,
      Timer.Call.setPeriod 500] }

/-- An enabled 32-bit timer whose overflow value is 2^24 + 1. -/
def wideTimer : TimerState := { enabled := true, overflow := 16777217, log := [] }

/-- The float `-0.5`. -/
def F32.minusHalf : F32 := F32.fin true (2 ^ 148)

/-- A running channel object. -/
def runningChannel : IPwmChannel := { inverted_ := false, running_ := true }

/-- A basic-tier timer with 16-bit registers whose two-argument
`configureOutputChannel` does not touch the compare register. -/
def plainTimer : Timer :=
  { hasAdvancedPwmControl := false, valueBits := 16, configValueIsCompare := false }

/-! ## Theorems -/

/-! ### Rounding to binary32 -/

namespace F32

theorem bitLenAux_spec (fuel : Nat) : ∀ n, n ≤ fuel →
    n < 2 ^ bitLenAux fuel n ∧ (0 < n → 2 ^ (bitLenAux fuel n - 1) ≤ n) := by
  induction fuel with
  | zero =>
    intro n hn
    have : n = 0 := by omega
    subst this
    simp [bitLenAux]
  | succ fuel ih =>
    intro n hn
    unfold bitLenAux
    by_cases h0 : n = 0
    · subst h0; simp
    · simp only [h0, if_false]
      have hdiv : n / 2 ≤ fuel := by omega
      obtain ⟨h1, h2⟩ := ih (n / 2) hdiv
      constructor
      · rw [pow_succ]; omega
      · intro _
        simp only [Nat.add_sub_cancel]
        by_cases h3 : n / 2 = 0
        · have hb : bitLenAux fuel (n / 2) = 0 := by
            rw [h3]; cases fuel <;> simp [bitLenAux]
          rw [hb]; simp; omega
        · have h4 := h2 (by omega)
          have h5 : bitLenAux fuel (n / 2) ≠ 0 := by
            intro h6; rw [h6] at h1; simp at h1; exact h3 h1
          obtain ⟨b, hb⟩ := Nat.exists_eq_succ_of_ne_zero h5
          rw [hb] at h4 ⊢
          simp only [Nat.succ_sub_one] at h4
          rw [Nat.succ_eq_add_one, pow_succ]; omega

theorem lt_pow_bitLen (n : Nat) : n < 2 ^ bitLen n := (bitLenAux_spec n n le_rfl).1

theorem pow_bitLen_le (n : Nat) (h : 0 < n) : 2 ^ (bitLen n - 1) ≤ n :=
  (bitLenAux_spec n n le_rfl).2 h

theorem bitLen_zero : bitLen 0 = 0 := by simp [bitLen, bitLenAux]

theorem bitLen_pos (n : Nat) (h : 0 < n) : 0 < bitLen n := by
  rcases Nat.eq_zero_or_pos (bitLen n) with h0 | h0
  · have := lt_pow_bitLen n; rw [h0] at this; simp at this; omega
  · exact h0

/-- The bit length is the only `b` with `2^(b-1) ≤ n < 2^b`. -/
theorem bitLen_unique (n b : Nat) (h1 : n < 2 ^ b) (h2 : 2 ^ (b - 1) ≤ n) (hb : 0 < b) :
    bitLen n = b := by
  have hn : 0 < n := lt_of_lt_of_le (by positivity) h2
  have h3 := lt_pow_bitLen n
  have h4 := pow_bitLen_le n hn
  have h5 := bitLen_pos n hn
  have a1 : 2 ^ (b - 1) < 2 ^ bitLen n := lt_of_le_of_lt h2 h3
  have a2 : 2 ^ (bitLen n - 1) < 2 ^ b := lt_of_le_of_lt h4 h1
  have a3 := (Nat.pow_lt_pow_iff_right (by norm_num : 1 < 2)).1 a1
  have a4 := (Nat.pow_lt_pow_iff_right (by norm_num : 1 < 2)).1 a2
  omega

theorem bitLen_le_iff (n b : Nat) : bitLen n ≤ b ↔ n < 2 ^ b := by
  constructor
  · intro h
    exact lt_of_lt_of_le (lt_pow_bitLen n) (Nat.pow_le_pow_right (by norm_num) h)
  · intro h
    by_contra hc
    push_neg at hc
    rcases Nat.eq_zero_or_pos n with h0 | h0
    · subst h0; rw [bitLen_zero] at hc; omega
    · have h4 := pow_bitLen_le n h0
      have : 2 ^ b ≤ 2 ^ (bitLen n - 1) := Nat.pow_le_pow_right (by norm_num) (by omega)
      omega

theorem bitLen_mono {m n : Nat} (h : m ≤ n) : bitLen m ≤ bitLen n :=
  (bitLen_le_iff m _).2 (lt_of_le_of_lt h (lt_pow_bitLen n))

theorem bitLen_mul_pow (n a : Nat) (h : 0 < n) : bitLen (n * 2 ^ a) = bitLen n + a := by
  have hb := bitLen_pos n h
  apply bitLen_unique
  · rw [pow_add]
    exact Nat.mul_lt_mul_of_pos_right (lt_pow_bitLen n) (by positivity)
  · have : bitLen n + a - 1 = (bitLen n - 1) + a := by omega
    rw [this, pow_add]
    exact Nat.mul_le_mul_right _ (pow_bitLen_le n h)
  · omega

theorem rne_ge (m k : Nat) : m / 2 ^ k ≤ rne m k := by
  unfold rne; simp only; split_ifs <;> omega

theorem rne_le (m k : Nat) : rne m k ≤ m / 2 ^ k + 1 := by
  unfold rne; simp only; split_ifs <;> omega

theorem rne_exact (m k : Nat) (h : m % 2 ^ k = 0) : rne m k = m / 2 ^ k := by
  have hp : 0 < 2 ^ k := by positivity
  unfold rne; simp only [h]; split_ifs <;> omega

theorem rne_mul_pow (x a j : Nat) : rne (x * 2 ^ a) (a + j) = rne x j := by
  have e2 : (2 : Nat) ^ (a + j) = 2 ^ j * 2 ^ a := by rw [pow_add, mul_comm]
  have hq : x * 2 ^ a / (2 ^ j * 2 ^ a) = x / 2 ^ j :=
    Nat.mul_div_mul_right _ _ (by positivity)
  have hr : x * 2 ^ a % (2 ^ j * 2 ^ a) = x % 2 ^ j * 2 ^ a :=
    Nat.mul_mod_mul_right _ _ _
  have hp : 0 < 2 ^ a := by positivity
  have e1 : 2 * (x % 2 ^ j * 2 ^ a) = (2 * (x % 2 ^ j)) * 2 ^ a := by ring
  unfold rne
  simp only [e2, hq, hr, e1, Nat.mul_lt_mul_right hp]

theorem grid_floor (x z j : Nat) (hz : z % 2 ^ j = 0) (h : z ≤ x) : z ≤ rne x j * 2 ^ j := by
  have h1 : z / 2 ^ j ≤ x / 2 ^ j := Nat.div_le_div_right h
  have h2 : z = z / 2 ^ j * 2 ^ j := by
    have := Nat.div_add_mod z (2 ^ j); rw [hz] at this; rw [mul_comm] at this; omega
  calc z = z / 2 ^ j * 2 ^ j := h2
    _ ≤ rne x j * 2 ^ j := Nat.mul_le_mul_right _ (le_trans h1 (rne_ge x j))

theorem grid_ceil (x z j : Nat) (hz : z % 2 ^ j = 0) (h : x ≤ z) : rne x j * 2 ^ j ≤ z := by
  have hp : 0 < 2 ^ j := by positivity
  have h2 : z = z / 2 ^ j * 2 ^ j := by
    have := Nat.div_add_mod z (2 ^ j); rw [hz] at this; rw [mul_comm] at this; omega
  by_cases hx : x % 2 ^ j = 0
  · rw [rne_exact x j hx]
    have : x = x / 2 ^ j * 2 ^ j := by
      have := Nat.div_add_mod x (2 ^ j); rw [hx] at this; rw [mul_comm] at this; omega
    omega
  · have h3 : x / 2 ^ j < z / 2 ^ j := by
      by_contra hc
      push_neg at hc
      have h4 : z / 2 ^ j * 2 ^ j ≤ x / 2 ^ j * 2 ^ j := Nat.mul_le_mul_right _ hc
      have h5 := Nat.div_add_mod x (2 ^ j)
      have h6 : x / 2 ^ j * 2 ^ j ≤ x := by rw [mul_comm]; omega
      have h7 : x = z := by omega
      rw [h7] at hx; exact hx hz
    rw [h2]
    exact Nat.mul_le_mul_right _ (le_trans (rne_le x j) h3)

theorem pow_mod_pow (a b : Nat) (h : b ≤ a) : 2 ^ a % 2 ^ b = 0 :=
  Nat.mod_eq_zero_of_dvd (pow_dvd_pow 2 h)

theorem round24_lower (x y : Nat) (hy : Rep24 y) (h : y ≤ x) : y ≤ round24 x := by
  unfold round24
  rcases Nat.eq_or_lt_of_le (bitLen_mono h) with hb | hb
  · unfold Rep24 at hy; rw [hb] at hy
    exact grid_floor x y _ hy h
  · have hx : 0 < x := by
      by_contra hc
      have : x = 0 := by omega
      subst this; rw [bitLen_zero] at hb; omega
    have h1 : y < 2 ^ (bitLen x - 1) :=
      lt_of_lt_of_le (lt_pow_bitLen y) (Nat.pow_le_pow_right (by norm_num) (by omega))
    have h2 := grid_floor x (2 ^ (bitLen x - 1)) (bitLen x - 24)
      (pow_mod_pow _ _ (by omega)) (pow_bitLen_le x hx)
    omega

theorem round24_upper (x y : Nat) (hy : Rep24 y) (h : x ≤ y) : round24 x ≤ y := by
  unfold round24
  rcases Nat.eq_or_lt_of_le (bitLen_mono h) with hb | hb
  · unfold Rep24 at hy; rw [← hb] at hy
    exact grid_ceil x y _ hy h
  · have hy0 : 0 < y := by
      by_contra hc
      have : y = 0 := by omega
      subst this; rw [bitLen_zero] at hb; omega
    have h1 : 2 ^ bitLen x ≤ y :=
      le_trans (Nat.pow_le_pow_right (by norm_num) (by omega)) (pow_bitLen_le y hy0)
    have h2 := grid_ceil x (2 ^ bitLen x) (bitLen x - 24)
      (pow_mod_pow _ _ (by omega)) (le_of_lt (lt_pow_bitLen x))
    omega

theorem round24_rep (x : Nat) (h : Rep24 x) : round24 x = x :=
  le_antisymm (round24_upper x x h le_rfl) (round24_lower x x h le_rfl)

theorem rep24_mul_pow (m j : Nat) (h : m ≤ 2 ^ 24) : Rep24 (m * 2 ^ j) := by
  unfold Rep24
  rcases Nat.eq_zero_or_pos m with h0 | h0
  · subst h0; simp
  rcases Nat.eq_or_lt_of_le h with he | hl
  · subst he
    rw [← pow_add]
    apply pow_mod_pow
    have : bitLen (2 ^ (24 + j)) ≤ 24 + j + 1 :=
      (bitLen_le_iff _ _).2 (Nat.pow_lt_pow_right (by norm_num) (by omega))
    omega
  · have hb : bitLen m ≤ 24 := (bitLen_le_iff _ _).2 hl
    rw [bitLen_mul_pow m j h0]
    apply Nat.mod_eq_zero_of_dvd
    exact Dvd.dvd.mul_left (pow_dvd_pow 2 (by omega)) m

theorem rne_le_pow (x k : Nat) (h : bitLen x - 24 ≤ k) : rne x k ≤ 2 ^ 24 := by
  have h1 : x < 2 ^ (24 + k) :=
    lt_of_lt_of_le (lt_pow_bitLen x) (Nat.pow_le_pow_right (by norm_num) (by omega))
  have h2 : x / 2 ^ k < 2 ^ 24 := by
    rw [Nat.div_lt_iff_lt_mul (by positivity), ← pow_add]; exact h1
  have := rne_le x k
  omega

theorem round24_is_rep (x : Nat) : Rep24 (round24 x) :=
  rep24_mul_pow _ _ (rne_le_pow x _ le_rfl)


theorem round_mul_pow (neg : Bool) (x u : Nat) :
    round neg (x * 2 ^ u) u =
      if round24 x < huge then fin neg (round24 x) else inf neg := by
  rcases Nat.eq_zero_or_pos x with h0 | h0
  · subst h0
    simp [round, round24, bitLen_zero, rne]
  · have hk : max (bitLen (x * 2 ^ u) - 24) u = u + (bitLen x - 24) := by
      rw [bitLen_mul_pow x u h0]; omega
    unfold round round24
    simp only [hk, rne_mul_pow, Nat.add_sub_cancel_left]

theorem unit_pos : 0 < unit := by unfold unit; positivity

theorem round_unit (neg : Bool) (x : Nat) :
    round neg (x * unit) 149 =
      if round24 x < huge then fin neg (round24 x) else inf neg :=
  round_mul_pow neg x 149

theorem ofNat_eq (v : Nat) :
    ofNat v = if round24 (v * unit) < huge then fin false (round24 (v * unit))
      else inf false := by
  have := round_mul_pow false (v * unit) 0
  simpa [ofNat] using this

theorem ofNat_wf (v : Nat) : WF (ofNat v) := by
  rw [ofNat_eq]
  split_ifs with h
  · exact ⟨round24_is_rep _, h⟩
  · trivial

theorem ofNat_exact (v : Nat) (h : v ≤ 2 ^ 24) : ofNat v = fin false (v * unit) := by
  have hr : Rep24 (v * unit) := rep24_mul_pow v 149 h
  have hl : v * unit < huge := by
    unfold huge
    have : v * unit ≤ 2 ^ 24 * unit := Nat.mul_le_mul_right _ h
    have : 2 ^ 24 * unit < 2 ^ 128 * unit :=
      Nat.mul_lt_mul_of_pos_right (by norm_num) unit_pos
    omega
  rw [ofNat_eq, round24_rep _ hr, if_pos hl]

theorem mul_one (x : F32) (h : WF x) : mul x one = x := by
  cases x with
  | nan => rfl
  | inf s =>
    have : unit ≠ 0 := Nat.pos_iff_ne_zero.1 unit_pos
    simp [mul, one, this]
  | fin s n =>
    obtain ⟨h1, h2⟩ := h
    simp only [mul, one, Bool.xor_false]
    rw [round_unit, round24_rep n h1, if_pos h2]

theorem gt_one_one : gt one one = false := by simp [gt, one]

theorem toRat_ofNat (v : Nat) (h : v ≤ 2 ^ 24) : toRat (ofNat v) = (v : ℚ) := by
  rw [ofNat_exact v h]
  have : (unit : ℚ) ≠ 0 := by exact_mod_cast Nat.pos_iff_ne_zero.1 unit_pos
  simp [toRat, signedUnits]
  field_simp

theorem le_zero_one_cases (s : Bool) (n : Nat)
    (h0 : le (fin false 0) (fin s n) = true) (h1 : le (fin s n) one = true) :
    (s = false ∨ n = 0) ∧ n ≤ unit ∧ signedUnits s n = (n : Int) := by
  cases s <;> simp [le, one, signedUnits] at h0 h1 ⊢
  · exact h1
  · have : n = 0 := by omega
    subst this; simp

theorem lt_succ_div_mul (x u : Nat) (hu : 0 < u) : x < (x / u + 1) * u := by
  rw [Nat.mul_comm]; exact Nat.lt_mul_div_succ x hu

/-- Truncating the rounded product `v * d` of an integer `v ≤ 2^24` and a float
`0 ≤ d ≤ 1` of `n` units: the result is at most `v` and is less than 1 away from the
exact product, all in units. -/
theorem trunc_round24 (v n : Nat) (hv : v ≤ 2 ^ 24) (hn : n ≤ unit) :
    round24 (v * n) ≤ v * unit ∧
    v * n < (round24 (v * n) / unit + 1) * unit ∧
    round24 (v * n) / unit * unit < v * n + unit := by
  have hu := unit_pos
  have hX : v * n ≤ v * unit := Nat.mul_le_mul_left _ hn
  have hR : round24 (v * n) ≤ v * unit :=
    round24_upper _ _ (rep24_mul_pow v 149 hv) hX
  have hfl1 : v * n / unit * unit ≤ v * n := Nat.div_mul_le_self _ _
  have hfl2 : v * n < (v * n / unit + 1) * unit := by
    exact lt_succ_div_mul _ _ hu
  have hflv : v * n / unit ≤ v := by
    calc v * n / unit ≤ v * unit / unit := Nat.div_le_div_right hX
      _ = v := Nat.mul_div_cancel _ hu
  have hlow : v * n / unit * unit ≤ round24 (v * n) :=
    round24_lower _ _ (rep24_mul_pow _ 149 (le_trans hflv hv)) hfl1
  have ht : v * n / unit ≤ round24 (v * n) / unit :=
    (Nat.le_div_iff_mul_le hu).2 hlow
  have htR : round24 (v * n) / unit * unit ≤ round24 (v * n) := Nat.div_mul_le_self _ _
  refine ⟨hR, ?_, ?_⟩
  · exact lt_of_lt_of_le hfl2 (Nat.mul_le_mul_right _ (Nat.succ_le_succ ht))
  · by_cases hc : v * n / unit + 1 ≤ 2 ^ 24
    · have hup : round24 (v * n) ≤ (v * n / unit + 1) * unit :=
        round24_upper _ _ (rep24_mul_pow _ 149 hc) (le_of_lt hfl2)
      rcases Nat.lt_or_ge (round24 (v * n) / unit) (v * n / unit + 1) with hlt | hge
      · have : round24 (v * n) / unit * unit ≤ v * n / unit * unit :=
          Nat.mul_le_mul_right _ (by omega)
        omega
      · have h1 : (v * n / unit + 1) * unit ≤ round24 (v * n) / unit * unit :=
          Nat.mul_le_mul_right _ hge
        have h2 : round24 (v * n) = (v * n / unit + 1) * unit := by omega
        have h3 : v * n ≠ v * n / unit * unit := by
          intro h4
          have h5 : Rep24 (v * n) := by
            rw [h4]; exact rep24_mul_pow _ 149 (le_trans hflv hv)
          have h6 := round24_rep _ h5
          rw [Nat.add_mul] at h2
          omega
        rw [Nat.add_mul] at h2 h1
        omega
    · have h1 : v * n / unit = v := by omega
      have h2 : v * unit ≤ v * n := by rw [h1] at hfl1; exact hfl1
      have h3 : v * n = v * unit := le_antisymm hX h2
      have hrep : Rep24 (v * unit) := rep24_mul_pow v 149 hv
      rw [h3, round24_rep _ hrep, Nat.mul_div_cancel _ hu]
      omega

theorem round24_zero : round24 0 = 0 := by simp [round24, bitLen_zero, rne]

theorem round24_mul_pow (x a : Nat) : round24 (x * 2 ^ a) = round24 x * 2 ^ a := by
  rcases Nat.eq_zero_or_pos x with h0 | h0
  · subst h0; simp [round24_zero]
  · rcases Nat.lt_or_ge (bitLen x) 24 with hb | hb
    · have hx : x ≤ 2 ^ 24 :=
        le_of_lt ((bitLen_le_iff x 24).1 (le_of_lt hb))
      have h1 : Rep24 x := by
        have := rep24_mul_pow x 0 hx
        simpa using this
      rw [round24_rep _ (rep24_mul_pow x a hx), round24_rep _ h1]
    · have hk : bitLen (x * 2 ^ a) - 24 = a + (bitLen x - 24) := by
        rw [bitLen_mul_pow x a h0]; omega
      unfold round24
      rw [hk, rne_mul_pow, pow_add]
      ring

/-- The float of a positive integer is `+inf` or a positive whole number. -/
theorem ofNat_pos (v : Nat) (hv : 0 < v) :
    ofNat v = inf false ∨ ∃ m, 1 ≤ m ∧ ofNat v = fin false (m * unit) := by
  have hm : 1 ≤ round24 v := by
    have h1 : Rep24 1 := by
      have := rep24_mul_pow 1 0 (by norm_num)
      simpa using this
    exact round24_lower v 1 h1 hv
  have e : round24 (v * unit) = round24 v * unit := round24_mul_pow v 149
  rw [ofNat_eq]
  split_ifs with h
  · exact Or.inr ⟨round24 v, hm, by rw [e]⟩
  · exact Or.inl rfl

/-- The float product of a positive integer and a negative float is negative and at
least as large in magnitude as the float; a negative float is not above one. -/
theorem mul_ofNat_negative (v : Nat) (d : F32) (hwf : WF d)
    (hd : gt (fin false 0) d = true) (hv : 0 < v) :
    gt (fin false 0) (mul (ofNat v) d) = true ∧ le (mul (ofNat v) d) d = true ∧
    gt d one = false := by
  have hu := unit_pos
  cases d with
  | nan => simp [gt] at hd
  | inf s =>
    have hs : s = true := by simpa [gt] using hd
    subst hs
    rcases ofNat_pos v hv with h | ⟨m, hm, h⟩
    · rw [h]; simp [mul, gt, le, one]
    · have hne : m * unit ≠ 0 := Nat.pos_iff_ne_zero.1 (Nat.mul_pos hm hu)
      rw [h]; simp [mul, gt, le, one, hne]
  | fin s n =>
    have hsn : s = true ∧ 0 < n := by
      cases s
      · simp only [gt, signedUnits, Bool.false_eq_true, if_false, decide_eq_true_eq] at hd
        omega
      · simp only [gt, signedUnits, if_true, Bool.false_eq_true, if_false,
          decide_eq_true_eq] at hd
        exact ⟨rfl, by omega⟩
    obtain ⟨hs, hn⟩ := hsn
    subst hs
    have hone : gt (fin true n) one = false := by
      simp only [gt, one, signedUnits, if_true, Bool.false_eq_true, if_false,
        decide_eq_false_iff_not, not_lt]
      omega
    rcases ofNat_pos v hv with h | ⟨m, hm, h⟩
    · have hne : n ≠ 0 := Nat.pos_iff_ne_zero.1 hn
      rw [h]
      refine ⟨?_, ?_, hone⟩ <;> simp [mul, gt, le, hne]
    · have hle : n ≤ round24 (m * n) :=
        round24_lower _ _ hwf.1 (Nat.le_mul_of_pos_left n hm)
      have hmul : mul (fin false (m * unit)) (fin true n) =
          if round24 (m * n) < huge then fin true (round24 (m * n)) else inf true := by
        simp only [mul, Bool.false_xor]
        rw [show m * unit * n = m * n * unit by ring, round_unit]
      rw [h, hmul]
      refine ⟨?_, ?_, hone⟩
      · split_ifs
        · simp only [gt, signedUnits, if_true, Bool.false_eq_true, if_false,
            decide_eq_true_eq]
          omega
        · simp [gt]
      · split_ifs
        · simp only [le, signedUnits, if_true, decide_eq_true_eq]
          omega
        · simp [le]

end F32

/-! ### The channel -/

namespace PwmChannel

open Timer

theorem ConfigureChannel_eq (T : Timer) (C : Channel) (m : OutputCompareMode)
    (t : TimerState) :
    ConfigureChannel T C m t = { t with log := t.log ++ [configCall T C m] } := by
  unfold ConfigureChannel configCall Timer.configureOutputChannel
  cases T.hasAdvancedPwmControl <;> cases C.isComplementaryChannel <;> simp

theorem Start_eq (T : Timer) (C : Channel) (self : IPwmChannel) (t : TimerState) :
    Start T C self t =
      ({ self with running_ := true },
        { t with log := t.log ++
            [configCall T C (if self.inverted_ then OutputCompareMode.Pwm2
              else OutputCompareMode.Pwm), Call.start] }) := by
  simp [Start, ConfigureChannel_eq, Timer.start]

theorem Stop_eq (T : Timer) (C : Channel) (self : IPwmChannel) (t : TimerState) :
    Stop T C self t =
      ({ self with running_ := false },
        { t with log := t.log ++
            [configCall T C (if self.inverted_ then OutputCompareMode.ForceActive
              else OutputCompareMode.ForceInactive), Call.pause] }) := by
  simp [Stop, ConfigureChannel_eq, Timer.pause]

theorem InitTimer_eq (T : Timer) (K : SystemClock) (f : Nat) (t : TimerState)
    (hf : 1 ≤ f) :
    InitTimer T K f t =
      some { enabled := true, overflow := K.ticks (kUsInSecond / f),
             log := t.log ++ bringUpCalls T (kUsInSecond / f) } := by
  have hf0 : f ≠ 0 := by omega
  unfold InitTimer bringUpCalls
  cases T.hasAdvancedPwmControl <;>
    simp [hf0, Timer.enable, Timer.setMode, Timer.setPeriod, Timer.enableOutput]

theorem Init_enabled (T : Timer) (C : Channel) (K : SystemClock) (invert : Bool)
    (f : Nat) (self : IPwmChannel) (t : TimerState) (h : t.enabled = true) :
    Init T C K invert f self t =
      some ({ inverted_ := invert, running_ := true },
        { t with log := t.log ++
            [Call.connect C.id,
              configCall T C (if invert then OutputCompareMode.Pwm2
                else OutputCompareMode.Pwm), Call.start] }) := by
  simp [Init, Timer.isEnabled, h, Start_eq, Timer.connect]

theorem Init_disabled (T : Timer) (C : Channel) (K : SystemClock) (invert : Bool)
    (f : Nat) (self : IPwmChannel) (t : TimerState) (h : t.enabled = false)
    (hf : 1 ≤ f) :
    Init T C K invert f self t =
      some ({ inverted_ := invert, running_ := true },
        { enabled := true, overflow := K.ticks (kUsInSecond / f),
          log := t.log ++ bringUpCalls T (kUsInSecond / f) ++
            [Call.connect C.id,
              configCall T C (if invert then OutputCompareMode.Pwm2
                else OutputCompareMode.Pwm), Call.start] }) := by
  simp [Init, Timer.isEnabled, h, InitTimer_eq T K f t hf, Start_eq, Timer.connect]

/-- C1, as stated, fails on a timer that is already enabled: `Init(false, 1000)` on a
timer brought up earlier with a period of 500 microseconds ends running, but the
programmed period is still 500 microseconds, not 1000000 / 1000. -/
theorem Init_enabled_keeps_period :
    ∃ r, Init advancedTimer mainChannel sampleClock false 1000 {} enabledTimer = some r ∧
      r.1.isRunning = true ∧ r.1.isInverted = false ∧
      r.2.period = some 500 ∧ r.2.period ≠ some (1000000 / 1000) :=
  ⟨_, rfl, by decide, by decide, by decide, by decide⟩

/-- C1 (amended): for every starting state of the channel and of its timer, every
invert flag and every pwm_freq >= 1, `Init(invert, pwm_freq)` returns with the channel
running and `isInverted() == invert`; the programmed period is 1000000 / pwm_freq
microseconds when the timer was not enabled before the call, and is the previously
programmed one when the timer was already enabled. -/
theorem Init_running_inverted_period (T : Timer) (C : Channel) (K : SystemClock)
    (invert : Bool) (pwm_freq : Nat) (self : IPwmChannel) (t : TimerState)
    (hf : 1 ≤ pwm_freq) :
    ∃ r, Init T C K invert pwm_freq self t = some r ∧
      r.1.isRunning = true ∧ r.1.isInverted = invert ∧
      (t.enabled = false → r.2.period = some (1000000 / pwm_freq)) ∧
      (t.enabled = true → r.2.period = t.period) := by
  cases h : t.enabled with
  | true =>
    refine ⟨_, Init_enabled T C K invert pwm_freq self t h, rfl, rfl, ?_, ?_⟩
    · intro h2; cases h2
    · intro _
      unfold TimerState.period configCall
      cases T.hasAdvancedPwmControl <;> simp [List.findSome?_cons]
  | false =>
    refine ⟨_, Init_disabled T C K invert pwm_freq self t h hf, rfl, rfl, ?_, ?_⟩
    · intro _
      unfold TimerState.period configCall bringUpCalls kUsInSecond
      cases T.hasAdvancedPwmControl <;> simp [List.findSome?_cons]
    · intro h2; cases h2

/-- C1 (amended), at a sample input: a disabled timer, `Init(true, 1000)`. -/
theorem Init_running_inverted_period_witness :
    1 ≤ 1000 ∧
    ∃ r, Init basicTimer mainChannel sampleClock true 1000 {} freshTimer = some r ∧
      r.1.isRunning = true ∧ r.1.isInverted = true ∧
      (freshTimer.enabled = false → r.2.period = some (1000000 / 1000)) ∧
      (freshTimer.enabled = true → r.2.period = freshTimer.period) :=
  ⟨by decide,
    Init_running_inverted_period basicTimer mainChannel sampleClock true 1000 {} freshTimer
      (by decide)⟩

/-- C2, as stated, fails on a basic-tier timer: after `A.Init(false, 1000)` and
`B.Init(true, 2000)` on a shared timer that started disabled, `enable`, `setMode` and
`setPeriod` were each called once, but `enableOutput` was never called. -/
theorem Init_twice_basic_no_enableOutput :
    ∃ ra rb,
      Init basicTimer mainChannel sampleClock false 1000 {} freshTimer = some ra ∧
      Init basicTimer secondChannel sampleClock true 2000 {} ra.2 = some rb ∧
      rb.2.calls Call.enable = 1 ∧ rb.2.setModeCalls = 1 ∧ rb.2.setPeriodCalls = 1 ∧
      rb.2.calls Call.enableOutput = 0 ∧ rb.2.calls Call.enableOutput ≠ 1 :=
  ⟨_, _, rfl, rfl, by decide, by decide, by decide, by decide, by decide⟩

/-- C2 (amended): `Init` on a channel whose timer already reports `isEnabled() == true`
issues none of the bring-up calls (it issues `connect`, one channel configuration
and `start`, nothing else) and leaves the timer's period and counting mode unchanged,
for every invert and pwm_freq; consequently, for two channels A and B sharing one timer
that starts disabled, `A.Init(invA, fA)` with fA >= 1 followed by `B.Init(invB, fB)`
issues `enable`, `setMode` and `setPeriod` exactly once each, issues `enableOutput`
exactly once on an advanced-control timer and not at all on a basic-tier timer, and the
programmed period is the one computed from A's frequency. -/
theorem Init_bring_up_once (T : Timer) (CA CB : Channel) (K : SystemClock)
    (invA invB : Bool) (fA fB : Nat) (a b : IPwmChannel) (t : TimerState) :
    (t.enabled = true →
      ∃ r, Init T CB K invB fB b t = some r ∧
        (∃ args, r.2.log = t.log ++
          [Call.connect CB.id, Call.configureOutputChannel CB.id args, Call.start]) ∧
        r.2.calls Call.enable = t.calls Call.enable ∧
        r.2.setModeCalls = t.setModeCalls ∧
        r.2.setPeriodCalls = t.setPeriodCalls ∧
        r.2.calls Call.enableOutput = t.calls Call.enableOutput ∧
        r.2.period = t.period ∧ r.2.mode = t.mode) ∧
    (t.enabled = false → 1 ≤ fA →
      ∃ ra rb, Init T CA K invA fA a t = some ra ∧ Init T CB K invB fB b ra.2 = some rb ∧
        rb.2.calls Call.enable = t.calls Call.enable + 1 ∧
        rb.2.setModeCalls = t.setModeCalls + 1 ∧
        rb.2.setPeriodCalls = t.setPeriodCalls + 1 ∧
        rb.2.calls Call.enableOutput =
          t.calls Call.enableOutput + (if T.hasAdvancedPwmControl then 1 else 0) ∧
        rb.2.period = some (1000000 / fA) ∧
        rb.2.mode = some Mode.UpCounter) := by
  constructor
  · intro h
    refine ⟨_, Init_enabled T CB K invB fB b t h, ?_, ?_, ?_, ?_, ?_, ?_, ?_⟩
    · unfold configCall
      cases T.hasAdvancedPwmControl
      · exact ⟨_, rfl⟩
      · exact ⟨_, rfl⟩
    all_goals
      unfold configCall
      cases T.hasAdvancedPwmControl <;>
      simp [TimerState.calls, TimerState.setModeCalls, TimerState.setPeriodCalls,
        TimerState.period, TimerState.mode, List.findSome?_cons, List.count_cons]
  · intro h hf
    refine ⟨_, _, Init_disabled T CA K invA fA a t h hf,
      Init_enabled T CB K invB fB b _ rfl, ?_, ?_, ?_, ?_, ?_, ?_⟩ <;>
      unfold configCall bringUpCalls kUsInSecond <;>
      cases T.hasAdvancedPwmControl <;>
      simp [TimerState.calls, TimerState.setModeCalls, TimerState.setPeriodCalls,
        TimerState.period, TimerState.mode, List.findSome?_cons, List.count_cons]

/-- C2 (amended), at sample inputs: a second `Init` on the enabled sample timer, and
two `Init` calls on the fresh advanced-control timer. -/
theorem Init_bring_up_once_witness :
    (∃ r, Init advancedTimer secondChannel sampleClock true 0 {} enabledTimer = some r ∧
        r.2.calls Call.enable = 1 ∧ r.2.period = some 500 ∧
        r.2.mode = some Mode.DownCounter) ∧
    (∃ ra rb, Init advancedTimer mainChannel sampleClock false 1000 {} freshTimer = some ra ∧
        Init advancedTimer secondChannel sampleClock true 0 {} ra.2 = some rb ∧
        rb.2.calls Call.enable = 1 ∧ rb.2.setModeCalls = 1 ∧ rb.2.setPeriodCalls = 1 ∧
        rb.2.calls Call.enableOutput = 1 ∧ rb.2.period = some 1000) := by
  have h := Init_bring_up_once advancedTimer mainChannel secondChannel sampleClock
    false true 1000 0 {} {} enabledTimer
  have g := Init_bring_up_once advancedTimer mainChannel secondChannel sampleClock
    false true 1000 0 {} {} freshTimer
  obtain ⟨r, hr, _, h1, _, _, _, h2, h3⟩ := h.1 (by decide)
  obtain ⟨ra, rb, hra, hrb, g1, g2, g3, g4, g5, _⟩ := g.2 (by decide) (by decide)
  exact ⟨⟨r, hr, by rw [h1]; decide, by rw [h2]; decide, by rw [h3]; decide⟩,
    ⟨ra, rb, hra, hrb, by rw [g1]; decide, by rw [g2]; decide, by rw [g3]; decide,
      by rw [g4]; decide, by rw [g5]⟩⟩

theorem compareValue_SetDutyCycle (T : Timer) (C : Channel) (d : F32)
    (self : IPwmChannel) (t : TimerState) :
    (SetDutyCycle C d self t).2.compareValue T C.id =
      F32.toValue T.valueBits
        (F32.mul (F32.ofNat t.overflow) (if F32.gt d F32.one = true then F32.one else d)) := by
  simp [SetDutyCycle, Timer.setCompareValue, Timer.getOverflow, TimerState.compareValue,
    TimerState.compareWrite, List.findSome?_cons]

/-- C3, as stated, fails for an overflow value above 2^24: with overflow 2^24 + 1,
`SetDutyCycle(2.0)` hands `setCompareValue` the float 16777216.0, because the overflow
value is rounded when it is converted to `float`; that is not the overflow value
itself. -/
theorem SetDutyCycle_above_one_wide_overflow :
    F32.gt F32.two F32.one = true ∧
    (SetDutyCycle mainChannel F32.two {} wideTimer).2.compareArg mainChannel.id =
      some (F32.fin false (16777216 * F32.unit)) ∧
    (F32.fin false (16777216 * F32.unit)).toRat = 16777216 ∧
    (F32.fin false (16777216 * F32.unit)).toRat ≠ (wideTimer.overflow : ℚ) := by
  have hu : (F32.unit : ℚ) ≠ 0 := by
    exact_mod_cast Nat.pos_iff_ne_zero.1 F32.unit_pos
  have h1 : (F32.fin false (16777216 * F32.unit)).toRat = 16777216 := by
    simp only [F32.toRat, F32.signedUnits, Bool.false_eq_true, if_false]
    push_cast
    field_simp
  refine ⟨by decide, by decide, h1, ?_⟩
  rw [h1]
  norm_num [wideTimer]

/-- C3 (amended): for every duty cycle d > 1.0 and every timer overflow value,
`SetDutyCycle(d)` does exactly what `SetDutyCycle(1.0)` does: the one call it issues
hands `setCompareValue` the float product `overflow * 1.0`, which is the overflow
value converted to `float`; that is the overflow value itself whenever the overflow
value is at most 2^24. -/
theorem SetDutyCycle_clamps_above_one (C : Channel) (d : F32) (self : IPwmChannel)
    (t : TimerState) (hd : F32.gt d F32.one = true) :
    SetDutyCycle C d self t = SetDutyCycle C F32.one self t ∧
    (SetDutyCycle C d self t).2.log =
      t.log ++ [Call.setCompareValue C.id (F32.mul (F32.ofNat t.overflow) F32.one)] ∧
    (SetDutyCycle C d self t).2.compareArg C.id =
      some (F32.mul (F32.ofNat t.overflow) F32.one) ∧
    F32.mul (F32.ofNat t.overflow) F32.one = F32.ofNat t.overflow ∧
    (t.overflow ≤ 2 ^ 24 → (F32.ofNat t.overflow).toRat = (t.overflow : ℚ)) := by
  refine ⟨?_, ?_, ?_, F32.mul_one _ (F32.ofNat_wf _), F32.toRat_ofNat _⟩
  · simp [SetDutyCycle, hd, F32.gt_one_one]
  · simp [SetDutyCycle, hd, Timer.setCompareValue, Timer.getOverflow]
  · simp [SetDutyCycle, hd, Timer.setCompareValue, Timer.getOverflow,
      TimerState.compareArg, List.findSome?_cons]

/-- C3 (amended), at a sample input: duty cycle 2.0 on the enabled sample timer. -/
theorem SetDutyCycle_clamps_above_one_witness :
    F32.gt F32.two F32.one = true ∧
    SetDutyCycle mainChannel F32.two {} enabledTimer =
      SetDutyCycle mainChannel F32.one {} enabledTimer ∧
    F32.mul (F32.ofNat enabledTimer.overflow) F32.one = F32.ofNat enabledTimer.overflow :=
  have h := SetDutyCycle_clamps_above_one mainChannel F32.two {} enabledTimer (by decide)
  ⟨by decide, h.1, h.2.2.2.1⟩

/-- C4, as stated, fails for an overflow value above 2^24: with overflow 2^24 + 1 on a
32-bit timer, `SetDutyCycle(1.0)` programs 16777216, because the overflow value is
rounded when it is converted to `float`; that is exactly 1 away from the product. -/
theorem SetDutyCycle_wide_overflow_off_by_one :
    F32.WF F32.one ∧ F32.le F32.zero F32.one = true ∧ F32.le F32.one F32.one = true ∧
    (SetDutyCycle mainChannel F32.one {} wideTimer).2.compareValue basicTimer
      mainChannel.id = some 16777216 ∧
    ¬ (|((16777216 : Nat) : ℚ) - (wideTimer.overflow : ℚ) * F32.toRat F32.one| < 1) := by
  refine ⟨by decide, by decide, by decide, by decide, ?_⟩
  have h1 : F32.toRat F32.one = 1 := by
    have : (F32.unit : ℚ) ≠ 0 := by
      exact_mod_cast Nat.pos_iff_ne_zero.1 F32.unit_pos
    simp [F32.toRat, F32.one, F32.signedUnits, this]
  rw [h1]
  norm_num [wideTimer]

/-- C4 (amended): for every float duty cycle d with 0.0 <= d <= 1.0 and every timer
overflow value v <= 2^24 (so on every timer of at most 24 bits) that fits the
register type, `SetDutyCycle(d)` hands `setCompareValue` the float product `v * d`;
the compare register of the bound channel then holds its truncation c, with
0 <= c <= v and c less than 1 away from the exact product v * d. -/
theorem SetDutyCycle_compare_value (T : Timer) (C : Channel) (d : F32)
    (self : IPwmChannel) (t : TimerState) (hwf : F32.WF d)
    (h0 : F32.le F32.zero d = true) (h1 : F32.le d F32.one = true)
    (hv : t.overflow ≤ 2 ^ 24) (hw : t.overflow < 2 ^ T.valueBits) :
    ∃ c, (SetDutyCycle C d self t).2.compareArg C.id =
        some (F32.mul (F32.ofNat t.overflow) d) ∧
      (SetDutyCycle C d self t).2.compareValue T C.id = some c ∧
      c ≤ t.overflow ∧ |(c : ℚ) - (t.overflow : ℚ) * d.toRat| < 1 := by
  cases d with
  | nan => simp [F32.le, F32.zero] at h0
  | inf s => cases s <;> simp [F32.le, F32.zero, F32.one] at h0 h1
  | fin s n =>
    obtain ⟨hs, hn, hsu⟩ := F32.le_zero_one_cases s n h0 h1
    obtain ⟨hR, hlo, hhi⟩ := F32.trunc_round24 t.overflow n hv hn
    have hu := F32.unit_pos
    have hgt : F32.gt (F32.fin s n) F32.one = false := by
      simp only [F32.gt, F32.one, hsu]
      simp only [F32.signedUnits, Bool.false_eq_true, if_false, decide_eq_false_iff_not,
        not_lt]
      exact_mod_cast hn
    have hhuge : F32.round24 (t.overflow * n) < F32.huge := by
      have : t.overflow * F32.unit ≤ 2 ^ 24 * F32.unit := Nat.mul_le_mul_right _ hv
      have : 2 ^ 24 * F32.unit < F32.huge :=
        Nat.mul_lt_mul_of_pos_right (by norm_num) hu
      omega
    have hmul : F32.mul (F32.ofNat t.overflow) (F32.fin s n) =
        F32.fin s (F32.round24 (t.overflow * n)) := by
      rw [F32.ofNat_exact _ hv]
      simp only [F32.mul, Bool.false_xor]
      rw [show t.overflow * F32.unit * n = t.overflow * n * F32.unit by ring,
        F32.round_unit, if_pos hhuge]
    have htv : F32.round24 (t.overflow * n) / F32.unit ≤ t.overflow := by
      calc F32.round24 (t.overflow * n) / F32.unit
          ≤ t.overflow * F32.unit / F32.unit := Nat.div_le_div_right hR
        _ = t.overflow := Nat.mul_div_cancel _ hu
    have hsz : ¬ (s = true ∧ F32.round24 (t.overflow * n) / F32.unit ≠ 0) := by
      rintro ⟨hs1, hne⟩
      rcases hs with hs | hs
      · rw [hs] at hs1; cases hs1
      · subst hs
        apply hne
        simp [F32.round24, F32.bitLen_zero, F32.rne]
    have harg : (SetDutyCycle C (F32.fin s n) self t).2.compareArg C.id =
        some (F32.mul (F32.ofNat t.overflow) (F32.fin s n)) := by
      simp [SetDutyCycle, hgt, Timer.setCompareValue, Timer.getOverflow,
        TimerState.compareArg, List.findSome?_cons]
    refine ⟨F32.round24 (t.overflow * n) / F32.unit, harg, ?_, htv, ?_⟩
    · have hlt : F32.round24 (t.overflow * n) / F32.unit < 2 ^ T.valueBits :=
        lt_of_le_of_lt htv hw
      have hb : (s && decide (F32.round24 (t.overflow * n) / F32.unit ≠ 0)) = false := by
        cases s
        · rfl
        · simp only [Bool.true_and, decide_eq_false_iff_not]
          exact fun hne => hsz ⟨rfl, hne⟩
      rw [compareValue_SetDutyCycle, if_neg (by simp [hgt]), hmul]
      simp only [F32.toValue, hb, Bool.false_eq_true, if_false, hlt, if_true]
    · have huq : (0 : ℚ) < (F32.unit : ℚ) := by exact_mod_cast hu
      have e : (t.overflow : ℚ) * F32.toRat (F32.fin s n) =
          ((t.overflow * n : Nat) : ℚ) / (F32.unit : ℚ) := by
        simp only [F32.toRat, hsu]
        push_cast
        ring
      have hloq : ((t.overflow * n : Nat) : ℚ) <
          ((F32.round24 (t.overflow * n) / F32.unit : Nat) + 1 : ℚ) * (F32.unit : ℚ) := by
        exact_mod_cast hlo
      have hhiq : ((F32.round24 (t.overflow * n) / F32.unit : Nat) : ℚ) * (F32.unit : ℚ) <
          ((t.overflow * n : Nat) : ℚ) + (F32.unit : ℚ) := by
        exact_mod_cast hhi
      have a1 := (div_lt_iff₀ huq).2 hloq
      have a2 := (lt_div_iff₀ huq).2 hhiq
      have a3 : (((t.overflow * n : Nat) : ℚ) + (F32.unit : ℚ)) / (F32.unit : ℚ) =
          ((t.overflow * n : Nat) : ℚ) / (F32.unit : ℚ) + 1 := by
        field_simp
      rw [e, abs_lt]
      constructor <;> linarith

/-- C4 (amended), at a sample input: duty cycle 0.5 on the 16-bit sample timer, whose
overflow value is 42000; the compare register then holds 21000. -/
theorem SetDutyCycle_compare_value_witness :
    (F32.WF F32.half ∧ F32.le F32.zero F32.half = true ∧ F32.le F32.half F32.one = true ∧
      enabledTimer.overflow ≤ 2 ^ 24 ∧ enabledTimer.overflow < 2 ^ advancedTimer.valueBits) ∧
    (SetDutyCycle mainChannel F32.half {} enabledTimer).2.compareValue advancedTimer
      mainChannel.id = some 21000 ∧
    ∃ c, (SetDutyCycle mainChannel F32.half {} enabledTimer).2.compareArg mainChannel.id =
        some (F32.mul (F32.ofNat enabledTimer.overflow) F32.half) ∧
      (SetDutyCycle mainChannel F32.half {} enabledTimer).2.compareValue advancedTimer
        mainChannel.id = some c ∧
      c ≤ enabledTimer.overflow ∧
      |(c : ℚ) - (enabledTimer.overflow : ℚ) * F32.half.toRat| < 1 :=
  ⟨⟨by decide, by decide, by decide, by decide, by decide⟩, by decide,
    SetDutyCycle_compare_value advancedTimer mainChannel F32.half {} enabledTimer
      (by decide) (by decide) (by decide) (by decide) (by decide)⟩

/-- C5: for every channel state, `Start()` issues exactly two calls: it configures the
channel's output-compare mode, to `Pwm` when `inverted_` is false and to `Pwm2` when it
is true, on either timer tier, and then starts the timer; it ends with
`isRunning() == true` and `isInverted()` unchanged. -/
theorem Start_configures_pwm (T : Timer) (C : Channel) (self : IPwmChannel)
    (t : TimerState) :
    (∃ rest, (Start T C self t).2.log = t.log ++
        [Call.configureOutputChannel C.id
          (Arg.mode (if self.isInverted then OutputCompareMode.Pwm2
            else OutputCompareMode.Pwm) :: rest),
         Call.start]) ∧
    (Start T C self t).2.counting = some true ∧
    (Start T C self t).1.isRunning = true ∧
    (Start T C self t).1.isInverted = self.isInverted := by
  rw [Start_eq]
  refine ⟨?_, ?_, rfl, rfl⟩
  · unfold configCall IPwmChannel.isInverted
    cases T.hasAdvancedPwmControl
    · exact ⟨_, rfl⟩
    · exact ⟨_, rfl⟩
  · simp [TimerState.counting, List.findSome?_cons]

/-- C6: for every channel state, `Stop()` issues exactly two calls: it configures the
channel's output-compare mode, to `ForceInactive` when `inverted_` is false and to
`ForceActive` when it is true, on either timer tier, and then pauses the timer; it ends
with `isRunning() == false` and `isInverted()` unchanged. -/
theorem Stop_configures_forced (T : Timer) (C : Channel) (self : IPwmChannel)
    (t : TimerState) :
    (∃ rest, (Stop T C self t).2.log = t.log ++
        [Call.configureOutputChannel C.id
          (Arg.mode (if self.isInverted then OutputCompareMode.ForceActive
            else OutputCompareMode.ForceInactive) :: rest),
         Call.pause]) ∧
    (Stop T C self t).2.counting = some false ∧
    (Stop T C self t).1.isRunning = false ∧
    (Stop T C self t).1.isInverted = self.isInverted := by
  rw [Stop_eq]
  refine ⟨?_, ?_, rfl, rfl⟩
  · unfold configCall IPwmChannel.isInverted
    cases T.hasAdvancedPwmControl
    · exact ⟨_, rfl⟩
    · exact ⟨_, rfl⟩
  · simp [TimerState.counting, List.findSome?_cons]

/-- C7: for every channel state and every v, `SetInverted(v)` sets `isInverted()` to v,
leaves `isRunning()` unchanged, and does exactly what `Start()` does under the new
polarity if the channel was running and what `Stop()` does under the new polarity
otherwise; in particular `SetInverted(true)` while running programs mode `Pwm2`, starts
the timer and keeps `isRunning() == true`, and `SetInverted(true)` while stopped
programs mode `ForceActive`, pauses the timer and keeps `isRunning() == false`. -/
theorem SetInverted_replays (T : Timer) (C : Channel) (v : Bool) (self : IPwmChannel)
    (t : TimerState) :
    (SetInverted T C v self t).1.isInverted = v ∧
    (SetInverted T C v self t).1.isRunning = self.isRunning ∧
    SetInverted T C v self t =
      (if self.isRunning then Start T C { self with inverted_ := v } t
        else Stop T C { self with inverted_ := v } t) ∧
    (self.isRunning = true →
      (∃ rest, (SetInverted T C true self t).2.log = t.log ++
        [Call.configureOutputChannel C.id (Arg.mode OutputCompareMode.Pwm2 :: rest),
          Call.start]) ∧
      (SetInverted T C true self t).1.isRunning = true) ∧
    (self.isRunning = false →
      (∃ rest, (SetInverted T C true self t).2.log = t.log ++
        [Call.configureOutputChannel C.id (Arg.mode OutputCompareMode.ForceActive :: rest),
          Call.pause]) ∧
      (SetInverted T C true self t).1.isRunning = false) := by
  have hrun : ∀ w, ({ self with inverted_ := w } : IPwmChannel).running_ = self.running_ :=
    fun _ => rfl
  refine ⟨?_, ?_, ?_, ?_, ?_⟩
  · unfold SetInverted
    cases h : self.running_ <;> simp [h, Start, Stop, IPwmChannel.isInverted]
  · unfold SetInverted
    cases h : self.running_ <;> simp [h, Start, Stop, IPwmChannel.isRunning]
  · unfold SetInverted IPwmChannel.isRunning
    cases h : self.running_ <;> simp [h]
  · intro h
    have h2 : self.running_ = true := h
    have e : SetInverted T C true self t = Start T C { self with inverted_ := true } t := by
      unfold SetInverted; simp [h2]
    rw [e, Start_eq]
    refine ⟨?_, rfl⟩
    unfold configCall
    cases T.hasAdvancedPwmControl
    · exact ⟨_, rfl⟩
    · exact ⟨_, rfl⟩
  · intro h
    have h2 : self.running_ = false := h
    have e : SetInverted T C true self t = Stop T C { self with inverted_ := true } t := by
      unfold SetInverted; simp [h2]
    rw [e, Stop_eq]
    refine ⟨?_, rfl⟩
    unfold configCall
    cases T.hasAdvancedPwmControl
    · exact ⟨_, rfl⟩
    · exact ⟨_, rfl⟩

/-- C7, at sample inputs: `SetInverted(true)` on a running and on a stopped channel of
the basic-tier sample timer. -/
theorem SetInverted_replays_witness :
    ((∃ rest, (SetInverted basicTimer mainChannel true
          { inverted_ := false, running_ := true } freshTimer).2.log = freshTimer.log ++
        [Call.configureOutputChannel mainChannel.id
          (Arg.mode OutputCompareMode.Pwm2 :: rest), Call.start]) ∧
      (SetInverted basicTimer mainChannel true
          { inverted_ := false, running_ := true } freshTimer).1.isRunning = true) ∧
    ((∃ rest, (SetInverted basicTimer mainChannel true
          { inverted_ := false, running_ := false } freshTimer).2.log = freshTimer.log ++
        [Call.configureOutputChannel mainChannel.id
          (Arg.mode OutputCompareMode.ForceActive :: rest), Call.pause]) ∧
      (SetInverted basicTimer mainChannel true
          { inverted_ := false, running_ := false } freshTimer).1.isRunning = false) :=
  ⟨(SetInverted_replays basicTimer mainChannel true
      { inverted_ := false, running_ := true } freshTimer).2.2.2.1 rfl,
   (SetInverted_replays basicTimer mainChannel true
      { inverted_ := false, running_ := false } freshTimer).2.2.2.2 rfl⟩

/-- C8: on an advanced-control timer that is not yet enabled, with a main
(non-complementary) channel, `Init(false, 1000)` programs a timer period of 1000
microseconds, configures the channel with output mode `Pwm`, main pin `Enable`,
polarity `ActiveHigh` and complementary pin `Disable`, and ends with
`isRunning() == true` and `isInverted() == false`. -/
theorem Init_advanced_main_normal (T : Timer) (C : Channel) (K : SystemClock)
    (self : IPwmChannel) (t : TimerState) (hT : T.hasAdvancedPwmControl = true)
    (hC : C.isComplementaryChannel = false) (ht : Timer.isEnabled t = false) :
    ∃ r, Init T C K false 1000 self t = some r ∧
      r.2.period = some 1000 ∧
      r.2.channelConfig C.id =
        some [Arg.mode OutputCompareMode.Pwm, Arg.pin PinState.Enable,
          Arg.polarity OutputComparePolarity.ActiveHigh, Arg.pin PinState.Disable] ∧
      r.1.isRunning = true ∧ r.1.isInverted = false := by
  refine ⟨_, Init_disabled T C K false 1000 self t ht (by decide), ?_, ?_, rfl, rfl⟩
  · simp [TimerState.period, configCall, bringUpCalls, kUsInSecond, hT, hC,
      List.findSome?_cons]
  · simp [TimerState.channelConfig, configCall, bringUpCalls, hT, hC,
      List.findSome?_cons]

/-- C8, at a sample input: the fresh advanced-control sample timer and main channel. -/
theorem Init_advanced_main_normal_witness :
    (advancedTimer.hasAdvancedPwmControl = true ∧
      mainChannel.isComplementaryChannel = false ∧ Timer.isEnabled freshTimer = false) ∧
    ∃ r, Init advancedTimer mainChannel sampleClock false 1000 {} freshTimer = some r ∧
      r.2.period = some 1000 ∧
      r.2.channelConfig mainChannel.id =
        some [Arg.mode OutputCompareMode.Pwm, Arg.pin PinState.Enable,
          Arg.polarity OutputComparePolarity.ActiveHigh, Arg.pin PinState.Disable] ∧
      r.1.isRunning = true ∧ r.1.isInverted = false :=
  ⟨⟨rfl, rfl, rfl⟩,
    Init_advanced_main_normal advancedTimer mainChannel sampleClock {} freshTimer
      rfl rfl rfl⟩

/-- C9, as stated, fails: on the advanced-control sample timer with a main channel,
`Init(true, 1000)` configures mode `Pwm2` with main pin `Enable` and complementary pin
`Disable`, not main pin `Disable` and complementary pin `Enable`. -/
theorem Init_inverted_main_pins_not_swapped :
    ∃ r, Init advancedTimer mainChannel sampleClock true 1000 {} freshTimer = some r ∧
      r.2.channelConfig mainChannel.id =
        some [Arg.mode OutputCompareMode.Pwm2, Arg.pin PinState.Enable,
          Arg.polarity OutputComparePolarity.ActiveHigh, Arg.pin PinState.Disable] ∧
      r.2.channelConfig mainChannel.id ≠
        some [Arg.mode OutputCompareMode.Pwm2, Arg.pin PinState.Disable,
          Arg.polarity OutputComparePolarity.ActiveHigh, Arg.pin PinState.Enable] :=
  ⟨_, rfl, by decide, by decide⟩

/-- C9 (amended): on an advanced-control timer with a main (non-complementary) channel,
`Init(true, 1000)` configures the channel with output mode `Pwm2`, main pin `Enable`,
polarity `ActiveHigh` and complementary pin `Disable`, whether or not the timer was
enabled before; the inversion shows in the mode only. -/
theorem Init_advanced_main_inverted (T : Timer) (C : Channel) (K : SystemClock)
    (self : IPwmChannel) (t : TimerState) (hT : T.hasAdvancedPwmControl = true)
    (hC : C.isComplementaryChannel = false) :
    ∃ r, Init T C K true 1000 self t = some r ∧
      r.2.channelConfig C.id =
        some [Arg.mode OutputCompareMode.Pwm2, Arg.pin PinState.Enable,
          Arg.polarity OutputComparePolarity.ActiveHigh, Arg.pin PinState.Disable] ∧
      r.1.isRunning = true ∧ r.1.isInverted = true := by
  cases h : t.enabled with
  | true =>
    refine ⟨_, Init_enabled T C K true 1000 self t h, ?_, rfl, rfl⟩
    simp [TimerState.channelConfig, configCall, hT, hC, List.findSome?_cons]
  | false =>
    refine ⟨_, Init_disabled T C K true 1000 self t h (by decide), ?_, rfl, rfl⟩
    simp [TimerState.channelConfig, configCall, bringUpCalls, hT, hC,
      List.findSome?_cons]

/-- C9 (amended), at a sample input: the enabled sample timer, taken as an
advanced-control timer, and the second main channel. -/
theorem Init_advanced_main_inverted_witness :
    (advancedTimer.hasAdvancedPwmControl = true ∧
      secondChannel.isComplementaryChannel = false) ∧
    ∃ r, Init advancedTimer secondChannel sampleClock true 1000 {} enabledTimer = some r ∧
      r.2.channelConfig secondChannel.id =
        some [Arg.mode OutputCompareMode.Pwm2, Arg.pin PinState.Enable,
          Arg.polarity OutputComparePolarity.ActiveHigh, Arg.pin PinState.Disable] ∧
      r.1.isRunning = true ∧ r.1.isInverted = true :=
  ⟨⟨rfl, rfl⟩,
    Init_advanced_main_inverted advancedTimer secondChannel sampleClock {} enabledTimer
      rfl rfl⟩

/-- C10, as stated, fails: on the basic-tier sample timer the configuration call that
`Start()` issues through `ConfigureChannel` carries two arguments, the mode and the
literal 0, not the mode only. -/
theorem ConfigureChannel_basic_two_arguments :
    (ConfigureChannel basicTimer mainChannel OutputCompareMode.Pwm freshTimer).log =
      [Call.configureOutputChannel mainChannel.id
        [Arg.mode OutputCompareMode.Pwm, Arg.int 0]] ∧
    (Start basicTimer mainChannel {} freshTimer).2.channelConfig mainChannel.id =
      some [Arg.mode OutputCompareMode.Pwm, Arg.int 0] ∧
    (Start basicTimer mainChannel {} freshTimer).2.channelConfig mainChannel.id ≠
      some [Arg.mode OutputCompareMode.Pwm] :=
  ⟨by decide, by decide, by decide⟩

/-- C10 (amended): on a basic-tier timer (`hasAdvancedPwmControl() == false`), the
channel-configuration call that `ConfigureChannel` issues, for both `Start` and `Stop`
and for every inversion, is the two-argument form: it carries the output-compare mode
and the literal 0, with no pin state and no polarity. -/
theorem ConfigureChannel_basic_form (T : Timer) (C : Channel) (m : OutputCompareMode)
    (self : IPwmChannel) (t : TimerState) (hT : T.hasAdvancedPwmControl = false) :
    (ConfigureChannel T C m t).log =
      t.log ++ [Call.configureOutputChannel C.id [Arg.mode m, Arg.int 0]] ∧
    (Start T C self t).2.log = t.log ++
      [Call.configureOutputChannel C.id
        [Arg.mode (if self.isInverted then OutputCompareMode.Pwm2
          else OutputCompareMode.Pwm), Arg.int 0], Call.start] ∧
    (Stop T C self t).2.log = t.log ++
      [Call.configureOutputChannel C.id
        [Arg.mode (if self.isInverted then OutputCompareMode.ForceActive
          else OutputCompareMode.ForceInactive), Arg.int 0], Call.pause] := by
  refine ⟨?_, ?_, ?_⟩
  · simp [ConfigureChannel_eq, configCall, hT]
  · simp [Start_eq, configCall, hT, IPwmChannel.isInverted]
  · simp [Stop_eq, configCall, hT, IPwmChannel.isInverted]

/-- C10 (amended), at a sample input: `Stop()` on an inverted channel of the basic-tier
sample timer. -/
theorem ConfigureChannel_basic_form_witness :
    basicTimer.hasAdvancedPwmControl = false ∧
    (Stop basicTimer mainChannel { inverted_ := true, running_ := true } freshTimer).2.log =
      freshTimer.log ++
      [Call.configureOutputChannel mainChannel.id
        [Arg.mode OutputCompareMode.ForceActive, Arg.int 0], Call.pause] :=
  ⟨rfl,
    (ConfigureChannel_basic_form basicTimer mainChannel OutputCompareMode.Pwm
      { inverted_ := true, running_ := true } freshTimer rfl).2.2⟩

/-- Neither `Stop()` nor `Start()` calls `setCompareValue` or `setPeriod`: after
`Stop(); Start()` the float last handed to `setCompareValue` and the programmed period
are what they were, on either tier; the compare register keeps its content on an
advanced-control timer, and on a basic-tier timer whose two-argument
`configureOutputChannel` does not store its second argument there. -/
theorem Stop_Start_keep_compare (T : Timer) (C : Channel) (self : IPwmChannel)
    (t : TimerState) :
    (Start T C (Stop T C self t).1 (Stop T C self t).2).2.compareArg C.id =
      t.compareArg C.id ∧
    (Start T C (Stop T C self t).1 (Stop T C self t).2).2.period = t.period ∧
    (T.hasAdvancedPwmControl = true ∨ T.configValueIsCompare = false →
      (Stop T C self t).2.compareValue T C.id = t.compareValue T C.id ∧
      (Start T C (Stop T C self t).1 (Stop T C self t).2).2.compareValue T C.id =
        t.compareValue T C.id) := by
  simp only [Start_eq, Stop_eq]
  refine ⟨?_, ?_, ?_⟩
  · unfold configCall
    cases T.hasAdvancedPwmControl <;>
      simp [TimerState.compareArg, List.findSome?_cons]
  · unfold configCall
    cases T.hasAdvancedPwmControl <;>
      simp [TimerState.period, List.findSome?_cons]
  · intro h
    unfold configCall
    cases hA : T.hasAdvancedPwmControl
    · have hV : T.configValueIsCompare = false := by
        rcases h with h | h
        · rw [hA] at h; cases h
        · exact h
      simp [TimerState.compareValue, TimerState.compareWrite, List.findSome?_cons, hV]
    · simp [TimerState.compareValue, TimerState.compareWrite, List.findSome?_cons]

/-- C11 fails on a basic-tier timer whose two-argument `configureOutputChannel` takes
the compare value: after `SetDutyCycle(0.5)` the compare register of the sample timer
(overflow 42000) holds 21000, and after `Stop(); Start()` it holds 0, the literal that
`ConfigureChannel` passes; no `setCompareValue` call was made in between. -/
theorem Stop_Start_basic_resets_compare :
    (SetDutyCycle mainChannel F32.half runningChannel enabledTimer).2.compareValue
      basicTimer mainChannel.id = some 21000 ∧
    (Start basicTimer mainChannel
      (Stop basicTimer mainChannel runningChannel
        (SetDutyCycle mainChannel F32.half runningChannel enabledTimer).2).1
      (Stop basicTimer mainChannel runningChannel
        (SetDutyCycle mainChannel F32.half runningChannel enabledTimer).2).2).2.compareValue
      basicTimer mainChannel.id = some 0 ∧
    (Start basicTimer mainChannel
      (Stop basicTimer mainChannel runningChannel
        (SetDutyCycle mainChannel F32.half runningChannel enabledTimer).2).1
      (Stop basicTimer mainChannel runningChannel
        (SetDutyCycle mainChannel F32.half runningChannel enabledTimer).2).2).2.log =
      enabledTimer.log ++
        [Call.setCompareValue mainChannel.id (F32.fin false (21000 * F32.unit)),
         Call.configureOutputChannel mainChannel.id
           [Arg.mode OutputCompareMode.ForceInactive, Arg.int 0],
         Call.pause,
         Call.configureOutputChannel mainChannel.id
           [Arg.mode OutputCompareMode.Pwm, Arg.int 0],
         Call.start] :=
  ⟨by decide, by decide, by decide⟩

theorem Init_some (T : Timer) (C : Channel) (K : SystemClock) (invert : Bool) (f : Nat)
    (self : IPwmChannel) (t : TimerState) (r : IPwmChannel × TimerState)
    (h : Init T C K invert f self t = some r) :
    r.1.running_ = true ∧ r.1.inverted_ = invert ∧
    ∃ t1, r = Start T C { self with inverted_ := invert } (Timer.connect C t1) := by
  unfold Init at h
  split at h
  · cases h
  · rename_i t1 _
    simp only [Option.some.injEq] at h
    subst h
    exact ⟨rfl, rfl, t1, rfl⟩

theorem step_defined (T : Timer) (C : Channel) (K : SystemClock) (op : Op)
    (s : IPwmChannel × TimerState) (h : op.defined = true) :
    ∃ s1, step T C K op s = some s1 := by
  cases op with
  | Init invert f =>
    have hf : 1 ≤ f := by simpa [Op.defined] using h
    cases he : s.2.enabled with
    | true => exact ⟨_, Init_enabled T C K invert f s.1 s.2 he⟩
    | false => exact ⟨_, Init_disabled T C K invert f s.1 s.2 he hf⟩
  | SetDutyCycle d => exact ⟨_, rfl⟩
  | Stop => exact ⟨_, rfl⟩
  | Start => exact ⟨_, rfl⟩
  | SetInverted v => exact ⟨_, rfl⟩

theorem run_defined (T : Timer) (C : Channel) (K : SystemClock) (ops : List Op) :
    ∀ s : IPwmChannel × TimerState, (∀ op ∈ ops, op.defined = true) →
      ∃ s1, run T C K ops s = some s1 := by
  induction ops with
  | nil => intro s _; exact ⟨s, rfl⟩
  | cons op ops ih =>
    intro s h
    obtain ⟨s1, h1⟩ := step_defined T C K op s (h op (List.mem_cons_self _ _))
    obtain ⟨s2, h2⟩ := ih s1 (fun o ho => h o (List.mem_cons_of_mem _ ho))
    exact ⟨s2, by simp [run, h1, h2]⟩

theorem SetInverted_running (T : Timer) (C : Channel) (v : Bool) (self : IPwmChannel)
    (t : TimerState) : (SetInverted T C v self t).1.running_ = self.running_ := by
  unfold SetInverted
  cases h : self.running_ <;> simp [h, Start, Stop]

theorem run_running (T : Timer) (C : Channel) (K : SystemClock) (ops : List Op) :
    ∀ s s1 : IPwmChannel × TimerState, run T C K ops s = some s1 →
      s1.1.running_ = runningAfter ops s.1.running_ := by
  induction ops with
  | nil =>
    intro s s1 h
    simp only [run, Option.some.injEq] at h
    subst h; rfl
  | cons op ops ih =>
    intro s s1 h
    simp only [run] at h
    cases hs : step T C K op s with
    | none => rw [hs] at h; simp at h
    | some s2 =>
      rw [hs] at h
      simp only [Option.bind] at h
      have h2 := ih s2 s1 h
      rw [h2]
      cases op with
      | Init invert f =>
        have := (Init_some T C K invert f s.1 s.2 s2 hs).1
        simp [runningAfter, this]
      | SetDutyCycle d =>
        simp only [step, Option.some.injEq] at hs
        subst hs; rfl
      | Stop =>
        simp only [step, Option.some.injEq] at hs
        subst hs; rfl
      | Start =>
        simp only [step, Option.some.injEq] at hs
        subst hs; rfl
      | SetInverted v =>
        simp only [step, Option.some.injEq] at hs
        subst hs
        simp [runningAfter, SetInverted_running]

theorem runningAfter_iff (ops : List Op) : ∀ b : Bool,
    runningAfter ops b = true ↔
      (∃ pre op post, ops = pre ++ op :: post ∧ op.starts = true ∧ Op.Stop ∉ post) ∨
      (b = true ∧ Op.Stop ∉ ops) := by
  induction ops with
  | nil => intro b; simp [runningAfter]
  | cons o ops ih =>
    intro b
    have key : ∀ b1 : Bool, runningAfter (o :: ops) b = runningAfter ops b1 →
        (o.starts = true → b1 = true) → (o = Op.Stop → b1 = false) →
        (o.starts = false → o ≠ Op.Stop → b1 = b) →
        (runningAfter (o :: ops) b = true ↔
          (∃ pre op post, o :: ops = pre ++ op :: post ∧ op.starts = true ∧
            Op.Stop ∉ post) ∨ (b = true ∧ Op.Stop ∉ o :: ops)) := by
      intro b1 e hst hsp hother
      rw [e, ih b1]
      constructor
      · rintro (⟨pre, op, post, h1, h2, h3⟩ | ⟨h1, h2⟩)
        · exact Or.inl ⟨o :: pre, op, post, by simp [h1], h2, h3⟩
        · cases hs : o.starts with
          | true => exact Or.inl ⟨[], o, ops, rfl, hs, h2⟩
          | false =>
            by_cases hstop : o = Op.Stop
            · rw [hsp hstop] at h1; cases h1
            · right
              refine ⟨by rw [← hother hs hstop]; exact h1, ?_⟩
              intro hm
              rcases List.mem_cons.1 hm with hm | hm
              · exact hstop hm.symm
              · exact h2 hm
      · rintro (⟨pre, op, post, h1, h2, h3⟩ | ⟨h1, h2⟩)
        · cases pre with
          | nil =>
            simp only [List.nil_append, List.cons.injEq] at h1
            obtain ⟨rfl, rfl⟩ := h1
            exact Or.inr ⟨hst h2, h3⟩
          | cons p pre =>
            simp only [List.cons_append, List.cons.injEq] at h1
            exact Or.inl ⟨pre, op, post, h1.2, h2, h3⟩
        · have hstop : o ≠ Op.Stop := fun h => h2 (by simp [h])
          have hops : Op.Stop ∉ ops := fun h => h2 (List.mem_cons_of_mem _ h)
          right
          cases hs : o.starts with
          | true => exact ⟨hst hs, hops⟩
          | false => exact ⟨by rw [hother hs hstop]; exact h1, hops⟩
    cases o with
    | Init invert f => exact key true rfl (fun _ => rfl) (fun h => by cases h) (fun h => by cases h)
    | SetDutyCycle d => exact key b rfl (fun h => by cases h) (fun h => by cases h) (fun _ _ => rfl)
    | Stop => exact key false rfl (fun h => by cases h) (fun _ => rfl) (fun _ h => absurd rfl h)
    | Start => exact key true rfl (fun _ => rfl) (fun h => by cases h) (fun h => by cases h)
    | SetInverted v => exact key b rfl (fun h => by cases h) (fun h => by cases h) (fun _ _ => rfl)

/-- C12, as stated, fails for a sequence with `Init(false, 0)` while the timer is not
enabled: the sequence contains an `Init` with no `Stop` after it, but `InitTimer`
divides by the zero frequency, so no state is reached in which `isRunning()` is true. -/
theorem run_Init_zero_undefined :
    run basicTimer mainChannel sampleClock [Op.Init false 0] ({}, freshTimer) = none ∧
    (∃ pre op post, [Op.Init false 0] = pre ++ op :: post ∧ op.starts = true ∧
      Op.Stop ∉ post) ∧
    ¬ ∃ s, run basicTimer mainChannel sampleClock [Op.Init false 0] ({}, freshTimer) =
      some s ∧ s.1.isRunning = true := by
  refine ⟨by decide, ⟨[], Op.Init false 0, [], rfl, rfl, by simp⟩, ?_⟩
  rintro ⟨s, h, _⟩
  have h0 : run basicTimer mainChannel sampleClock [Op.Init false 0] ({}, freshTimer) =
      none := by decide
  rw [h0] at h
  cases h

/-- C12 (amended): for every finite sequence of operations (`Init`, `Start`, `Stop`,
`SetInverted`, `SetDutyCycle` with any arguments, but every `Init` with pwm_freq >= 1)
applied to a freshly constructed channel, the calls all return and `isRunning()`
afterwards is true exactly when the sequence contains an `Init` or `Start` with no
`Stop` after it, and false otherwise (including the empty sequence); the same holds
for whatever sequence returns. `SetInverted` and `SetDutyCycle` never change it. -/
theorem run_isRunning (T : Timer) (C : Channel) (K : SystemClock) (ops : List Op)
    (t : TimerState) :
    ((∀ op ∈ ops, op.defined = true) → ∃ s, run T C K ops ({}, t) = some s) ∧
    (∀ s, run T C K ops ({}, t) = some s →
      (s.1.isRunning = true ↔
        ∃ pre op post, ops = pre ++ op :: post ∧ op.starts = true ∧ Op.Stop ∉ post)) ∧
    (∀ (self : IPwmChannel) (u : TimerState) (v : Bool) (d : F32),
      (SetInverted T C v self u).1.isRunning = self.isRunning ∧
      (SetDutyCycle C d self u).1.isRunning = self.isRunning) := by
  refine ⟨run_defined T C K ops _, ?_, ?_⟩
  · intro s h
    have h1 := run_running T C K ops _ s h
    unfold IPwmChannel.isRunning
    rw [h1, runningAfter_iff]
    simp
  · intro self u v d
    exact ⟨SetInverted_running T C v self u, rfl⟩

/-- C12 (amended), at a sample input: `Init(true, 1000); SetDutyCycle(0.5); Stop();
SetInverted(false); Start(); SetDutyCycle(2.0)` on the fresh basic-tier timer returns
and leaves the channel running. -/
theorem run_isRunning_witness :
    (∀ op ∈ [Op.Init true 1000, Op.SetDutyCycle F32.half, Op.Stop, Op.SetInverted false,
        Op.Start, Op.SetDutyCycle F32.two], op.defined = true) ∧
    ∃ s, run basicTimer mainChannel sampleClock
        [Op.Init true 1000, Op.SetDutyCycle F32.half, Op.Stop, Op.SetInverted false,
          Op.Start, Op.SetDutyCycle F32.two] ({}, freshTimer) = some s ∧
      s.1.isRunning = true := by
  have hd : ∀ op ∈ [Op.Init true 1000, Op.SetDutyCycle F32.half, Op.Stop,
      Op.SetInverted false, Op.Start, Op.SetDutyCycle F32.two], op.defined = true := by
    decide
  have h := run_isRunning basicTimer mainChannel sampleClock
    [Op.Init true 1000, Op.SetDutyCycle F32.half, Op.Stop, Op.SetInverted false,
      Op.Start, Op.SetDutyCycle F32.two] freshTimer
  obtain ⟨s, hs⟩ := h.1 hd
  refine ⟨hd, s, hs, (h.2.1 s hs).2 ?_⟩
  exact ⟨[Op.Init true 1000, Op.SetDutyCycle F32.half, Op.Stop, Op.SetInverted false],
    Op.Start, [Op.SetDutyCycle F32.two], rfl, rfl, by decide⟩

/-- C13: for every pwm_freq >= 1, `InitTimer` returns, makes exactly one `setPeriod`
call, and the period it passes is the truncating integer quotient
p = 1000000 / pwm_freq in microseconds, so p * pwm_freq <= 1000000 < (p + 1) * pwm_freq,
and p * pwm_freq = 1000000 holds exactly when pwm_freq divides 1000000. -/
theorem InitTimer_period_quotient (T : Timer) (K : SystemClock) (pwm_freq : Nat)
    (t : TimerState) (hf : 1 ≤ pwm_freq) :
    ∃ t1, InitTimer T K pwm_freq t = some t1 ∧
      (∃ rest, t1.log = t.log ++
        [Call.enable, Call.setMode Mode.UpCounter, Call.setPeriod (1000000 / pwm_freq)] ++
          rest ∧ ∀ c ∈ rest, c = Call.enableOutput) ∧
      t1.setPeriodCalls = t.setPeriodCalls + 1 ∧
      t1.period = some (1000000 / pwm_freq) ∧
      1000000 / pwm_freq * pwm_freq ≤ 1000000 ∧
      1000000 < (1000000 / pwm_freq + 1) * pwm_freq ∧
      (1000000 / pwm_freq * pwm_freq = 1000000 ↔ pwm_freq ∣ 1000000) := by
  refine ⟨_, InitTimer_eq T K pwm_freq t hf, ?_, ?_, ?_, ?_, ?_, ?_⟩
  · unfold bringUpCalls kUsInSecond
    cases T.hasAdvancedPwmControl
    · exact ⟨[], by simp, by simp⟩
    · exact ⟨[Call.enableOutput], by simp, by simp⟩
  · unfold bringUpCalls
    cases T.hasAdvancedPwmControl <;> simp [TimerState.setPeriodCalls]
  · unfold bringUpCalls kUsInSecond
    cases T.hasAdvancedPwmControl <;> simp [TimerState.period, List.findSome?_cons]
  · exact Nat.div_mul_le_self _ _
  · exact F32.lt_succ_div_mul _ _ (by omega)
  · constructor
    · intro h
      exact ⟨1000000 / pwm_freq, by rw [Nat.mul_comm]; exact h.symm⟩
    · intro h
      exact Nat.div_mul_cancel h

/-- C13, at a sample input: 3 Hz gives 333333 microseconds, and 3 does not divide
1000000. -/
theorem InitTimer_period_quotient_witness :
    1 ≤ 3 ∧
    ∃ t1, InitTimer basicTimer sampleClock 3 freshTimer = some t1 ∧
      t1.period = some 333333 ∧ 333333 * 3 ≤ 1000000 ∧ 1000000 < (333333 + 1) * 3 ∧
      ¬ (3 ∣ 1000000) := by
  obtain ⟨t1, h1, _, _, h2, h3, h4, h5⟩ :=
    InitTimer_period_quotient basicTimer sampleClock 3 freshTimer (by decide)
  exact ⟨by decide, t1, h1, h2, h3, h4, by decide⟩

/-- C14: the default PWM frequency that `Init` uses when none is given is
`kDefaultPwmFreq` = 10000 Hz, it is strictly below `kMaxPwmFreqSupported` = 24000, so
the compile-time assertion on the two constants holds; both fit their type `uint16_t`. -/
theorem kDefaultPwmFreq_below_max (T : Timer) (C : Channel) (K : SystemClock)
    (self : IPwmChannel) (t : TimerState) :
    InitDefault T C K self t = Init T C K false 10000 self t ∧
    IPwmChannel.kDefaultPwmFreq = 10000 ∧ kMaxPwmFreqSupported = 24000 ∧
    IPwmChannel.kDefaultPwmFreq < kMaxPwmFreqSupported ∧
    staticAssert = true ∧
    IPwmChannel.kDefaultPwmFreq < 2 ^ 16 ∧ kMaxPwmFreqSupported < 2 ^ 16 :=
  ⟨rfl, rfl, rfl, by decide, by decide, by decide, by decide⟩

/-- C15: on an advanced-control timer, for every output-compare mode passed in and
every inversion and running state, `ConfigureChannel` programs (main pin,
complementary pin) = (`Disable`, `Enable`) when the bound channel is a complementary
channel and (`Enable`, `Disable`) when it is a main channel, and always programs
polarity `ActiveHigh`; so do `Start` and `Stop`: the pin vector depends only on
whether the channel is complementary, never on the mode or on the inverted flag. -/
theorem ConfigureChannel_advanced_pins (T : Timer) (C : Channel) (m : OutputCompareMode)
    (self : IPwmChannel) (t : TimerState) (hT : T.hasAdvancedPwmControl = true) :
    (ConfigureChannel T C m t).log = t.log ++
      [Call.configureOutputChannel C.id
        [Arg.mode m,
         Arg.pin (if C.isComplementaryChannel then PinState.Disable else PinState.Enable),
         Arg.polarity OutputComparePolarity.ActiveHigh,
         Arg.pin (if C.isComplementaryChannel then PinState.Enable else PinState.Disable)]] ∧
    (Start T C self t).2.channelConfig C.id = some
        [Arg.mode (if self.isInverted then OutputCompareMode.Pwm2
          else OutputCompareMode.Pwm),
         Arg.pin (if C.isComplementaryChannel then PinState.Disable else PinState.Enable),
         Arg.polarity OutputComparePolarity.ActiveHigh,
         Arg.pin (if C.isComplementaryChannel then PinState.Enable else PinState.Disable)] ∧
    (Stop T C self t).2.channelConfig C.id = some
        [Arg.mode (if self.isInverted then OutputCompareMode.ForceActive
          else OutputCompareMode.ForceInactive),
         Arg.pin (if C.isComplementaryChannel then PinState.Disable else PinState.Enable),
         Arg.polarity OutputComparePolarity.ActiveHigh,
         Arg.pin (if C.isComplementaryChannel then PinState.Enable else PinState.Disable)] := by
  refine ⟨?_, ?_, ?_⟩
  · simp [ConfigureChannel_eq, configCall, hT]
  · simp [Start_eq, configCall, hT, TimerState.channelConfig, List.findSome?_cons,
      IPwmChannel.isInverted]
  · simp [Stop_eq, configCall, hT, TimerState.channelConfig, List.findSome?_cons,
      IPwmChannel.isInverted]

/-- C15, at a sample input: a complementary channel of the advanced-control sample
timer, configured for mode `ForceActive`. -/
theorem ConfigureChannel_advanced_pins_witness :
    advancedTimer.hasAdvancedPwmControl = true ∧
    (ConfigureChannel advancedTimer { id := 3, isComplementaryChannel := true }
        OutputCompareMode.ForceActive freshTimer).log = freshTimer.log ++
      [Call.configureOutputChannel 3
        [Arg.mode OutputCompareMode.ForceActive, Arg.pin PinState.Disable,
         Arg.polarity OutputComparePolarity.ActiveHigh, Arg.pin PinState.Enable]] :=
  ⟨rfl,
    (ConfigureChannel_advanced_pins advancedTimer { id := 3, isComplementaryChannel := true }
      OutputCompareMode.ForceActive {} freshTimer rfl).1⟩

/-- C16, as stated, fails for a zero frequency: on the fresh timer, which is not
enabled, `InitTimer(0)` divides by zero before any `setPeriod` call, so neither it nor
`Init(false, 0)` returns, and no `setPeriod`, `connect` or `Start` follows. -/
theorem Init_zero_frequency_undefined :
    Timer.isEnabled freshTimer = false ∧
    InitTimer basicTimer sampleClock 0 freshTimer = none ∧
    Init basicTimer mainChannel sampleClock false 0 {} freshTimer = none ∧
    ¬ ∃ t1, InitTimer basicTimer sampleClock 0 freshTimer = some t1 ∧
      t1.log = freshTimer.log ++
        [Call.enable, Call.setMode Mode.UpCounter, Call.setPeriod (1000000 / 0)] := by
  refine ⟨rfl, by decide, by decide, ?_⟩
  rintro ⟨t1, h, _⟩
  have h0 : InitTimer basicTimer sampleClock 0 freshTimer = none := by decide
  rw [h0] at h
  cases h

/-- C16 (amended): timer bring-up (`InitTimer`) with a frequency pwm_freq >= 1 issues,
in this order, `enable()`, `setMode(UpCounter)`, `setPeriod(1000000 / pwm_freq)`, and then
`enableOutput()` if and only if the timer is of the advanced-control tier; on a
basic-tier timer `enableOutput()` is not called. `Init` on a timer that is not enabled
issues these calls first and only then `connect`, the channel configuration and
`start`, the calls of `Start`. -/
theorem Init_bring_up_order (T : Timer) (C : Channel) (K : SystemClock) (invert : Bool)
    (pwm_freq : Nat) (self : IPwmChannel) (t : TimerState) (hf : 1 ≤ pwm_freq)
    (ht : Timer.isEnabled t = false) :
    (∃ t1, InitTimer T K pwm_freq t = some t1 ∧
      t1.log = t.log ++
        [Call.enable, Call.setMode Mode.UpCounter, Call.setPeriod (1000000 / pwm_freq)] ++
        (if T.hasAdvancedPwmControl then [Call.enableOutput] else [])) ∧
    (∃ r args, Init T C K invert pwm_freq self t = some r ∧
      r.2.log = t.log ++
        [Call.enable, Call.setMode Mode.UpCounter, Call.setPeriod (1000000 / pwm_freq)] ++
        (if T.hasAdvancedPwmControl then [Call.enableOutput] else []) ++
        [Call.connect C.id, Call.configureOutputChannel C.id args, Call.start] ∧
      r = Start T C { self with inverted_ := invert }
        (Timer.connect C
          { enabled := true, overflow := K.ticks (1000000 / pwm_freq),
            log := t.log ++
              [Call.enable, Call.setMode Mode.UpCounter,
                Call.setPeriod (1000000 / pwm_freq)] ++
              (if T.hasAdvancedPwmControl then [Call.enableOutput] else []) }) ∧
      (T.hasAdvancedPwmControl = false →
        r.2.calls Call.enableOutput = t.calls Call.enableOutput)) := by
  constructor
  · exact ⟨_, InitTimer_eq T K pwm_freq t hf, by simp [bringUpCalls, kUsInSecond]⟩
  · have hI := Init_disabled T C K invert pwm_freq self t ht hf
    cases hA : T.hasAdvancedPwmControl
    · refine ⟨_, [Arg.mode (if invert then OutputCompareMode.Pwm2
          else OutputCompareMode.Pwm), Arg.int 0], hI, ?_, ?_, ?_⟩
      · simp [bringUpCalls, configCall, hA, kUsInSecond]
      · simp [Start_eq, Timer.connect, bringUpCalls, configCall, hA, kUsInSecond]
      · intro _
        simp [TimerState.calls, bringUpCalls, configCall, hA, List.count_cons]
    · refine ⟨_, [Arg.mode (if invert then OutputCompareMode.Pwm2
          else OutputCompareMode.Pwm),
          Arg.pin (if C.isComplementaryChannel then PinState.Disable else PinState.Enable),
          Arg.polarity OutputComparePolarity.ActiveHigh,
          Arg.pin (if C.isComplementaryChannel then PinState.Enable
            else PinState.Disable)], hI, ?_, ?_, ?_⟩
      · simp [bringUpCalls, configCall, hA, kUsInSecond]
      · simp [Start_eq, Timer.connect, bringUpCalls, configCall, hA, kUsInSecond]
      · intro h; cases h

/-- C16 (amended), at sample inputs: `Init(false, 1000)` on the fresh basic-tier sample
timer. -/
theorem Init_bring_up_order_witness :
    (1 ≤ 1000 ∧ Timer.isEnabled freshTimer = false) ∧
    ∃ r, Init basicTimer mainChannel sampleClock false 1000 {} freshTimer = some r ∧
      r.2.log = [Call.enable, Call.setMode Mode.UpCounter, Call.setPeriod 1000,
        Call.connect 1,
        Call.configureOutputChannel 1 [Arg.mode OutputCompareMode.Pwm, Arg.int 0],
        Call.start] := by
  obtain ⟨r, args, h1, _, _, _⟩ :=
    (Init_bring_up_order basicTimer mainChannel sampleClock false 1000 {} freshTimer
      (by decide) rfl).2
  refine ⟨⟨by decide, rfl⟩, r, h1, ?_⟩
  have h2 : Init basicTimer mainChannel sampleClock false 1000 {} freshTimer =
      some (Start basicTimer mainChannel {}
        (Timer.connect mainChannel
          { enabled := true, overflow := 84000,
            log := [Call.enable, Call.setMode Mode.UpCounter, Call.setPeriod 1000] })) := by
    decide
  rw [h2] at h1
  simp only [Option.some.injEq] at h1
  subst h1
  decide

/-- C17: `SetDutyCycle` applies no lower clamp: for every float duty cycle d < 0 and
every overflow value v > 0, the one call `SetDutyCycle(d)` issues hands
`setCompareValue` the float product `v * d`, which is strictly negative, at least as
large in magnitude as d, and neither zero nor NaN. -/
theorem SetDutyCycle_negative_unclamped (C : Channel) (d : F32) (self : IPwmChannel)
    (t : TimerState) (hwf : F32.WF d) (hd : F32.gt F32.zero d = true)
    (hv : 0 < t.overflow) :
    (SetDutyCycle C d self t).2.log =
      t.log ++ [Call.setCompareValue C.id (F32.mul (F32.ofNat t.overflow) d)] ∧
    F32.gt F32.zero (F32.mul (F32.ofNat t.overflow) d) = true ∧
    F32.le (F32.mul (F32.ofNat t.overflow) d) d = true ∧
    (∀ s, F32.mul (F32.ofNat t.overflow) d ≠ F32.fin s 0) ∧
    F32.mul (F32.ofNat t.overflow) d ≠ F32.nan := by
  obtain ⟨h1, h2, h3⟩ := F32.mul_ofNat_negative t.overflow d hwf hd hv
  refine ⟨?_, h1, h2, ?_, ?_⟩
  · simp [SetDutyCycle, h3, Timer.setCompareValue, Timer.getOverflow]
  · intro s he
    rw [he] at h1
    cases s <;> simp [F32.gt, F32.zero, F32.signedUnits] at h1
  · intro he
    rw [he] at h1
    simp [F32.gt, F32.zero] at h1

/-- C17, at a sample input: duty cycle -0.5 on the sample timer of overflow 42000 hands
over -21000.0. -/
theorem SetDutyCycle_negative_unclamped_witness :
    (F32.WF F32.minusHalf ∧ F32.gt F32.zero F32.minusHalf = true ∧
      0 < enabledTimer.overflow) ∧
    (SetDutyCycle mainChannel F32.minusHalf {} enabledTimer).2.compareArg mainChannel.id =
      some (F32.fin true (21000 * F32.unit)) ∧
    F32.gt F32.zero (F32.mul (F32.ofNat enabledTimer.overflow) F32.minusHalf) = true :=
  ⟨⟨by decide, by decide, by decide⟩, by decide,
    (SetDutyCycle_negative_unclamped mainChannel F32.minusHalf {} enabledTimer
      (by decide) (by decide) (by decide)).2.1⟩

theorem InitDefault_some (T : Timer) (C : Channel) (K : SystemClock)
    (self : IPwmChannel) (t : TimerState) :
    ∃ r, InitDefault T C K self t = some r ∧ r.1.running_ = true ∧
      r.1.inverted_ = false := by
  unfold InitDefault
  cases he : t.enabled with
  | true => exact ⟨_, Init_enabled T C K false _ self t he, rfl, rfl⟩
  | false =>
    exact ⟨_, Init_disabled T C K false _ self t he (by decide), rfl, rfl⟩

/-- C18: for two channels A and B sharing one timer, `A.Stop()` changes neither
`B.isRunning()` nor `B.isInverted()` although it pauses the shared timer: the calls
`A.Init(); B.Init()` return from every state, and after `A.Stop()` the state has
`B.isRunning() == true` and `A.isRunning() == false` while the timer is paused. -/
theorem stopA_keeps_B_running (T : Timer) (CA CB : Channel) (K : SystemClock)
    (s : Shared) :
    (Shared.stopA T CA s).b.isRunning = s.b.isRunning ∧
    (Shared.stopA T CA s).b.isInverted = s.b.isInverted ∧
    (Shared.stopA T CA s).timer.counting = some false ∧
    ∃ s1 s2, Shared.initA T CA K s = some s1 ∧ Shared.initB T CB K s1 = some s2 ∧
      (Shared.stopA T CA s2).b.isRunning = true ∧
      (Shared.stopA T CA s2).a.isRunning = false ∧
      (Shared.stopA T CA s2).timer.counting = some false := by
  have hc : ∀ u : Shared, (Shared.stopA T CA u).timer.counting = some false := by
    intro u
    simp [Shared.stopA, Stop_eq, TimerState.counting, List.findSome?_cons]
  refine ⟨rfl, rfl, hc s, ?_⟩
  obtain ⟨ra, hra, _, _⟩ := InitDefault_some T CA K s.a s.timer
  obtain ⟨rb, hrb, hrun, _⟩ := InitDefault_some T CB K s.b ra.2
  refine ⟨{ s with a := ra.1, timer := ra.2 },
    { a := ra.1, b := rb.1, timer := rb.2 }, ?_, ?_, ?_, rfl, hc _⟩
  · simp [Shared.initA, hra]
  · simp [Shared.initB, hrb]
  · exact hrun

theorem channelMode_snoc (C : Channel) (T : Timer) (m : OutputCompareMode)
    (l : List Call) (e : Bool) (o : Nat) (c : Call)
    (hc : c = Call.start ∨ c = Call.pause) :
    TimerState.channelMode C.id
      { enabled := e, overflow := o, log := l ++ [configCall T C m, c] } = some m := by
  unfold configCall
  rcases hc with rfl | rfl <;> cases T.hasAdvancedPwmControl <;>
    simp [TimerState.channelMode, TimerState.channelConfig, List.findSome?_cons]

theorem Start_consistent (T : Timer) (C : Channel) (self : IPwmChannel) (t : TimerState) :
    Consistent C (Start T C self t) := by
  rw [Start_eq]
  refine ⟨?_, ?_⟩
  · rw [channelMode_snoc C T _ _ _ _ _ (Or.inl rfl)]
    simp [modeOf]
  · simp [TimerState.counting, List.findSome?_cons]

theorem Stop_consistent (T : Timer) (C : Channel) (self : IPwmChannel) (t : TimerState) :
    Consistent C (Stop T C self t) := by
  rw [Stop_eq]
  refine ⟨?_, ?_⟩
  · rw [channelMode_snoc C T _ _ _ _ _ (Or.inr rfl)]
    simp [modeOf]
  · simp [TimerState.counting, List.findSome?_cons]

theorem SetDutyCycle_consistent (C : Channel) (d : F32) (s : IPwmChannel × TimerState)
    (h : Consistent C s) : Consistent C (SetDutyCycle C d s.1 s.2) := by
  obtain ⟨h1, h2⟩ := h
  have e1 : (SetDutyCycle C d s.1 s.2).1 = s.1 := rfl
  refine ⟨?_, ?_⟩
  · rw [e1, ← h1]
    simp [SetDutyCycle, Timer.setCompareValue, TimerState.channelMode,
      TimerState.channelConfig, List.findSome?_cons]
  · rw [e1, ← h2]
    simp [SetDutyCycle, Timer.setCompareValue, TimerState.counting, List.findSome?_cons]

theorem step_consistent (T : Timer) (C : Channel) (K : SystemClock) (op : Op)
    (s s1 : IPwmChannel × TimerState) (h : step T C K op s = some s1)
    (hc : op.configures = true ∨ Consistent C s) : Consistent C s1 := by
  cases op with
  | Init invert f =>
    obtain ⟨_, _, t1, e⟩ := Init_some T C K invert f s.1 s.2 s1 h
    rw [e]; exact Start_consistent T C _ _
  | SetDutyCycle d =>
    simp only [step, Option.some.injEq] at h
    subst h
    rcases hc with hc | hc
    · cases hc
    · exact SetDutyCycle_consistent C d s hc
  | Stop =>
    simp only [step, Option.some.injEq] at h
    subst h; exact Stop_consistent T C _ _
  | Start =>
    simp only [step, Option.some.injEq] at h
    subst h; exact Start_consistent T C _ _
  | SetInverted v =>
    simp only [step, Option.some.injEq] at h
    subst h
    unfold SetInverted
    cases hr : s.1.running_
    · simp only [hr, Bool.false_eq_true, if_false]; exact Stop_consistent T C _ _
    · simp only [hr, if_true]; exact Start_consistent T C _ _

theorem run_consistent (T : Timer) (C : Channel) (K : SystemClock) (ops : List Op) :
    ∀ s s1 : IPwmChannel × TimerState, run T C K ops s = some s1 →
      (∃ op ∈ ops, op.configures = true) ∨ Consistent C s → Consistent C s1 := by
  induction ops with
  | nil =>
    intro s s1 h hc
    simp only [run, Option.some.injEq] at h
    subst h
    rcases hc with ⟨op, hop, _⟩ | hc
    · cases hop
    · exact hc
  | cons op ops ih =>
    intro s s1 h hc
    simp only [run] at h
    cases hs : step T C K op s with
    | none => rw [hs] at h; simp at h
    | some s2 =>
      rw [hs] at h
      simp only [Option.bind] at h
      apply ih s2 s1 h
      by_cases hop : op.configures = true
      · exact Or.inr (step_consistent T C K op s s2 hs (Or.inl hop))
      · rcases hc with ⟨o, ho, hco⟩ | hc
        · rcases List.mem_cons.1 ho with rfl | ho
          · exact absurd hco hop
          · exact Or.inl ⟨o, ho, hco⟩
        · exact Or.inr (step_consistent T C K op s s2 hs (Or.inr hc))

/-- C19, as stated, fails for a sequence in which `Init` gets a zero frequency while
the timer is not enabled: in `Stop(); Init(true, 0)` on the fresh timer, `InitTimer`
divides by zero, so there is no state after the sequence and no mode programmed by it
for the flags. -/
theorem run_Stop_Init_zero_undefined :
    (∃ op ∈ [Op.Stop, Op.Init true 0], op.configures = true) ∧
    run basicTimer mainChannel sampleClock [Op.Stop, Op.Init true 0] ({}, freshTimer) =
      none ∧
    ¬ ∃ s, run basicTimer mainChannel sampleClock [Op.Stop, Op.Init true 0]
        ({}, freshTimer) = some s ∧
      s.2.channelMode mainChannel.id = some OutputCompareMode.Pwm2 := by
  refine ⟨⟨Op.Stop, by simp, rfl⟩, by decide, ?_⟩
  rintro ⟨s, h, _⟩
  have h0 : run basicTimer mainChannel sampleClock [Op.Stop, Op.Init true 0]
      ({}, freshTimer) = none := by decide
  rw [h0] at h
  cases h

/-- C19 (amended): for a single channel that is the only user of its timer, every
sequence of `Init`, `Start`, `Stop`, `SetInverted` and `SetDutyCycle` calls in which
every `Init` has pwm_freq >= 1 returns, from every state; and after any sequence that
returns and holds at least one call other than `SetDutyCycle`, the output-compare mode
last programmed for the channel is determined by the two flags: `Pwm` if running and
not inverted, `Pwm2` if running and inverted, `ForceInactive` if stopped and not
inverted, `ForceActive` if stopped and inverted; and the timer was last started if
running and last paused if stopped. -/
theorem run_mode_follows_flags (T : Timer) (C : Channel) (K : SystemClock)
    (ops : List Op) (self : IPwmChannel) (t : TimerState) :
    ((∀ op ∈ ops, op.defined = true) → ∃ s, run T C K ops (self, t) = some s) ∧
    (∀ s, run T C K ops (self, t) = some s → (∃ op ∈ ops, op.configures = true) →
      s.2.channelMode C.id =
        some (if s.1.isRunning then
            (if s.1.isInverted then OutputCompareMode.Pwm2 else OutputCompareMode.Pwm)
          else
            (if s.1.isInverted then OutputCompareMode.ForceActive
              else OutputCompareMode.ForceInactive)) ∧
      s.2.counting = some s.1.isRunning) := by
  refine ⟨run_defined T C K ops _, ?_⟩
  intro s h hop
  exact run_consistent T C K ops _ s h (Or.inl hop)

/-- C19 (amended), at a sample input: `SetDutyCycle(0.5); Init(false, 1000);
SetInverted(true); Stop(); SetDutyCycle(2.0)` on the fresh advanced-control timer ends
stopped and inverted, with mode `ForceActive` programmed and the timer paused. -/
theorem run_mode_follows_flags_witness :
    (∀ op ∈ [Op.SetDutyCycle F32.half, Op.Init false 1000, Op.SetInverted true, Op.Stop,
        Op.SetDutyCycle F32.two], op.defined = true) ∧
    ∃ s, run advancedTimer mainChannel sampleClock
        [Op.SetDutyCycle F32.half, Op.Init false 1000, Op.SetInverted true, Op.Stop,
          Op.SetDutyCycle F32.two] ({}, freshTimer) = some s ∧
      s.1.isRunning = false ∧ s.1.isInverted = true ∧
      s.2.channelMode mainChannel.id = some OutputCompareMode.ForceActive ∧
      s.2.counting = some false := by
  have hd : ∀ op ∈ [Op.SetDutyCycle F32.half, Op.Init false 1000, Op.SetInverted true,
      Op.Stop, Op.SetDutyCycle F32.two], op.defined = true := by decide
  have h := run_mode_follows_flags advancedTimer mainChannel sampleClock
    [Op.SetDutyCycle F32.half, Op.Init false 1000, Op.SetInverted true, Op.Stop,
      Op.SetDutyCycle F32.two] {} freshTimer
  obtain ⟨s, hs⟩ := h.1 hd
  obtain ⟨h1, h2⟩ := h.2 s hs ⟨Op.Stop, by simp, rfl⟩
  have hr : s.1.isRunning = false ∧ s.1.isInverted = true := by
    have hm : (run advancedTimer mainChannel sampleClock
        [Op.SetDutyCycle F32.half, Op.Init false 1000, Op.SetInverted true, Op.Stop,
          Op.SetDutyCycle F32.two] ({}, freshTimer)).map
        (fun r => (r.1.isRunning, r.1.isInverted)) = some (false, true) := by decide
    rw [hs] at hm
    simp only [Option.map_some', Option.some.injEq, Prod.mk.injEq] at hm
    exact hm
  refine ⟨hd, s, hs, hr.1, hr.2, ?_, ?_⟩
  · rw [h1, hr.1, hr.2]; rfl
  · rw [h2, hr.1]

/-- C20: the unguarded division in `InitTimer` is safe on the supported range: for
every pwm_freq with 1 <= pwm_freq <= `kMaxPwmFreqSupported` (24000) `InitTimer`
returns and the period it programs lies between 41 and 1000000 microseconds, so it is
not zero; `InitTimer` divides by zero exactly for pwm_freq = 0, and programs a period
of zero exactly for pwm_freq > 1000000. -/
theorem InitTimer_division_safe (T : Timer) (K : SystemClock) (pwm_freq : Nat)
    (t : TimerState) :
    (1 ≤ pwm_freq → pwm_freq ≤ kMaxPwmFreqSupported →
      ∃ t1, InitTimer T K pwm_freq t = some t1 ∧
        t1.period = some (1000000 / pwm_freq) ∧
        41 ≤ 1000000 / pwm_freq ∧ 1000000 / pwm_freq ≤ 1000000 ∧
        1000000 / pwm_freq ≠ 0) ∧
    (InitTimer T K pwm_freq t = none ↔ pwm_freq = 0) ∧
    ((∃ t1, InitTimer T K pwm_freq t = some t1 ∧ t1.period = some 0) ↔
      1000000 < pwm_freq) := by
  have hper : ∀ f, 1 ≤ f →
      ∃ t1, InitTimer T K f t = some t1 ∧ t1.period = some (1000000 / f) := by
    intro f hf
    refine ⟨_, InitTimer_eq T K f t hf, ?_⟩
    unfold bringUpCalls kUsInSecond
    cases T.hasAdvancedPwmControl <;> simp [TimerState.period, List.findSome?_cons]
  refine ⟨?_, ?_, ?_⟩
  · intro h1 h2
    obtain ⟨t1, e1, e2⟩ := hper pwm_freq h1
    have h41 : 41 ≤ 1000000 / pwm_freq := by
      rw [Nat.le_div_iff_mul_le (by omega)]
      unfold kMaxPwmFreqSupported at h2
      omega
    exact ⟨t1, e1, e2, h41, Nat.div_le_self _ _, by omega⟩
  · constructor
    · intro h
      by_contra h0
      obtain ⟨t1, e1, _⟩ := hper pwm_freq (by omega)
      rw [e1] at h; cases h
    · intro h
      subst h
      simp [InitTimer]
  · constructor
    · rintro ⟨t1, e1, e2⟩
      have h1 : 1 ≤ pwm_freq := by
        by_contra h0
        have : pwm_freq = 0 := by omega
        subst this
        simp [InitTimer] at e1
      obtain ⟨t2, e3, e4⟩ := hper pwm_freq h1
      rw [e1] at e3
      simp only [Option.some.injEq] at e3
      subst e3
      rw [e2] at e4
      simp only [Option.some.injEq] at e4
      have := (Nat.div_eq_zero_iff (by omega : 0 < pwm_freq)).1 e4.symm
      exact this
    · intro h
      obtain ⟨t1, e1, e2⟩ := hper pwm_freq (by omega)
      refine ⟨t1, e1, ?_⟩
      rw [e2, (Nat.div_eq_zero_iff (by omega : 0 < pwm_freq)).2 h]

/-- C20, at sample inputs: the largest supported frequency, 24000 Hz, gives a period of
41 microseconds, and 1000001 Hz gives a period of zero. -/
theorem InitTimer_division_safe_witness :
    (1 ≤ 24000 ∧ 24000 ≤ kMaxPwmFreqSupported) ∧
    (∃ t1, InitTimer basicTimer sampleClock 24000 freshTimer = some t1 ∧
      t1.period = some 41) ∧
    (∃ t1, InitTimer basicTimer sampleClock 1000001 freshTimer = some t1 ∧
      t1.period = some 0) := by
  obtain ⟨t1, h1, h2, _⟩ :=
    (InitTimer_division_safe basicTimer sampleClock 24000 freshTimer).1
      (by decide) (by decide)
  exact ⟨⟨by decide, by decide⟩, ⟨t1, h1, h2⟩,
    (InitTimer_division_safe basicTimer sampleClock 1000001 freshTimer).2.2.2
      (by decide)⟩

end PwmChannel
